import Mathlib

/-!
Shallow embedding of the divvy component-entity library
(src/include/divvy/World.hpp, ComponentPool.hpp, Entity.hpp, Component.hpp).

Modelling choices:
* Slot indices (`EntityID`), handle identities and `std::type_index` keys
  are all plain `Nat`.
* `std::map<std::type_index, Pool>` becomes an association list sorted by
  its numeric key, with `std::map::insert` semantics (no overwrite on a
  duplicate key) and in-key-order iteration.
* `std::set<int> m_open` becomes a strictly sorted `List Nat`; `*begin()`
  is the head, i.e. the least element.
* A component instance is its payload value plus the `m_entity` back pointer
  (modelled as an optional handle id).  The per-type behaviour (default
  constructor value and `update`) is an environment `Nat → CompBehavior`.
* Entity handles live in a `Heap : Nat → Entity`; `World::m_entities`
  (`std::vector<std::reference_wrapper<Entity>>`) stores handle ids.
* C++ exceptions become `Except Err` / `Option` results; a thrown exception
  aborts the whole operation.
-/

namespace Divvy

/-- `divvy::Entity`: a world pointer (here: an optional world id) and a slot
index.  Default construction gives the unbound handle. -/
structure Entity where
  m_world : Option Nat := none
  m_id : Nat := 0
deriving DecidableEq

/-- `Entity::valid()`: bound iff the world pointer is non-null. -/
def Entity.valid (e : Entity) : Bool := e.m_world.isSome

/-- A stored component instance: the user payload together with the
`Component::m_entity` back pointer. -/
structure Inst (σ : Type) where
  val : σ
  m_entity : Option Nat
deriving DecidableEq

/-- Behaviour of one registered component type: the default-constructed
payload and the payload transformation performed by `update()`. -/
structure CompBehavior (σ : Type) where
  dflt : σ
  upd : σ → σ

/-- `std::vector::resize(n)` with default element `d`: truncate or extend. -/
def listResize (l : List α) (n : Nat) (d : α) : List α :=
  if n ≤ l.length then l.take n else l ++ List.replicate (n - l.length) d

/-- `divvy::ComponentPool<T>`: parallel instance and active-flag vectors. -/
structure PoolData (σ : Type) where
  m_pool : List (Inst σ)
  m_active : List Bool
deriving DecidableEq

namespace PoolData

variable {σ : Type}

/-- `ComponentPool::add`: out-of-bounds check against `m_pool.size()`, then
mark the slot active. -/
def add (p : PoolData σ) (i : Nat) : Option (PoolData σ) :=
  if p.m_pool.length ≤ i then none
  else some { p with m_active := p.m_active.set i true }

/-- `ComponentPool::at`: `m_pool.at(index)`, `none` models the
`std::out_of_range` throw. -/
def atIdx (p : PoolData σ) (i : Nat) : Option (Inst σ) :=
  p.m_pool[i]?

/-- `ComponentPool::has`: `m_active.at(index)` with the `out_of_range`
catch returning `false`. -/
def has (p : PoolData σ) (i : Nat) : Bool :=
  p.m_active.getD i false

/-- `ComponentPool::remove`: set the active flag to false; out of range is
rethrown as a runtime error (`none`). -/
def remove (p : PoolData σ) (i : Nat) : Option (PoolData σ) :=
  if i < p.m_active.length then some { p with m_active := p.m_active.set i false }
  else none

/-- `ComponentPool::resize`: resize both vectors, new instances default
constructed (payload `d`, null back pointer), new flags false. -/
def resize (p : PoolData σ) (n : Nat) (d : σ) : PoolData σ :=
  { m_pool := listResize p.m_pool n ⟨d, none⟩
    m_active := listResize p.m_active n false }

end PoolData

/-- The world's `m_registry`: a `std::map` from type key to pool, kept as a
key-sorted association list. -/
abbrev Registry (σ : Type) := List (Nat × PoolData σ)

/-- `std::map::find`. -/
def registryFind (r : Registry σ) (k : Nat) : Option (PoolData σ) :=
  match r with
  | [] => none
  | kp :: rest => if kp.1 = k then some kp.2 else registryFind rest k

/-- `std::map::insert`: insert in key order, no effect when the key is
already present. -/
def registryInsert (r : Registry σ) (k : Nat) (p : PoolData σ) : Registry σ :=
  match r with
  | [] => [(k, p)]
  | kp :: rest =>
    if k < kp.1 then (k, p) :: kp :: rest
    else if k = kp.1 then kp :: rest
    else kp :: registryInsert rest k p

/-- `std::map::erase`. -/
def registryErase (r : Registry σ) (k : Nat) : Registry σ :=
  match r with
  | [] => []
  | kp :: rest => if kp.1 = k then rest else kp :: registryErase rest k

/-- Mutation of the pool mapped to `k` (`m_registry.at(k)->...` as an
in-place write). -/
def registryModify (r : Registry σ) (k : Nat) (f : PoolData σ → PoolData σ) : Registry σ :=
  r.map (fun kp => if kp.1 = k then (kp.1, f kp.2) else kp)

/-- Fallible mutation of the pool mapped to `k`; a failure of `f` aborts
(an exception propagating out of the loop body). -/
def registryModifyM (r : Registry σ) (k : Nat) (f : PoolData σ → Option (PoolData σ)) :
    Option (Registry σ) :=
  match r with
  | [] => some []
  | kp :: rest =>
    if kp.1 = k then
      match f kp.2, registryModifyM rest k f with
      | some p, some rest2 => some ((kp.1, p) :: rest2)
      | _, _ => none
    else
      match registryModifyM rest k f with
      | some rest2 => some (kp :: rest2)
      | none => none

/-- `it->second->remove(id)` over the whole registry (`World::removeEntity`
loop); a pool throwing aborts the walk. -/
def registryRemoveAll (r : Registry σ) (i : Nat) : Option (Registry σ) :=
  match r with
  | [] => some []
  | kp :: rest =>
    match kp.2.remove i, registryRemoveAll rest i with
    | some p, some rest2 => some ((kp.1, p) :: rest2)
    | _, _ => none

/-- Keys of a registry, in iteration order. -/
def registryKeys (r : Registry σ) : List Nat := r.map Prod.fst

/-- `std::set<int>::insert` on the sorted open list. -/
def insertSorted (i : Nat) : List Nat → List Nat
  | [] => [i]
  | j :: rest =>
    if i < j then i :: j :: rest
    else if i = j then j :: rest
    else j :: insertSorted i rest

/-- Error taxonomy of the thrown `std::runtime_error`s. -/
inductive Err
  | uninit        -- "Uninitialized Entity, cannot ..."
  | nonexistent   -- "Entity non-existent - call Entity.reset() beforehand"
  | notRegistered -- "Component not registered - call World.add<T>() beforehand"
  | notFoundC     -- "Component non-existent - call hasComponent() beforehand"
  | notAdded      -- "Component type not added to World"
  | oob           -- propagated out-of-bounds / out-of-range conditions
deriving DecidableEq

/-- `divvy::World`. -/
structure World (σ : Type) where
  m_registry : Registry σ
  m_entities : List Nat
  m_open : List Nat
  m_capacity : Nat
  m_count : Nat
deriving DecidableEq

/-- A default-constructed `World`. -/
def emptyWorld (σ : Type) : World σ := ⟨[], [], [], 0, 0⟩

namespace World

variable {σ : Type}

/-- `World::add<T>()` (register a component type): `map::insert` of a fresh
pool, then resize the pool now mapped to the key to the current capacity. -/
def addT (w : World σ) (env : Nat → CompBehavior σ) (k : Nat) : World σ :=
  let reg1 := registryInsert w.m_registry k ⟨[], []⟩
  { w with m_registry := registryModify reg1 k (fun p => p.resize w.m_capacity (env k).dflt) }

/-- `World::has<T>()`: registry lookup. -/
def hasT (w : World σ) (k : Nat) : Bool :=
  (registryFind w.m_registry k).isSome

/-- `World::remove<T>()` (unregister): `map::erase`. -/
def removeT (w : World σ) (k : Nat) : World σ :=
  { w with m_registry := registryErase w.m_registry k }

/-- `World::hasEntity`: false when the id sits on the open list or is not
below the capacity. -/
def hasEntity (w : World σ) (e : Entity) : Bool :=
  if w.m_open.contains e.m_id ∨ w.m_capacity ≤ e.m_id then false else true

/-- `World::hasComponent<T>`: the type is registered and its pool is active
at the entity's slot. -/
def hasComponent (w : World σ) (e : Entity) (k : Nat) : Bool :=
  match registryFind w.m_registry k with
  | none => false
  | some p => p.has e.m_id

/-- `World::addEntity(Entity&)`: reuse the least open slot, else grow the
capacity by one and resize every registered pool to it.  The reuse path
performs the positional write `m_entities.at(index) = entity`
(World.hpp:177), and `std::vector::at` throws `std::out_of_range` when the
reused index is not below `m_entities.size()` — that throw is `none`.  The
growth path always succeeds. -/
def addEntity (w : World σ) (env : Nat → CompBehavior σ) (h : Nat) :
    Option (World σ × Nat) :=
  match w.m_open with
  | index :: rest =>
    if index < w.m_entities.length then
      some ({ w with m_open := rest
                     m_entities := w.m_entities.set index h
                     m_count := w.m_count + 1 }, index)
    else none
  | [] =>
    let cap := w.m_capacity + 1
    some ({ w with m_capacity := cap
                   m_registry := w.m_registry.map
                     (fun kp => (kp.1, kp.2.resize cap (env kp.1).dflt))
                   m_entities := w.m_entities ++ [h]
                   m_count := w.m_count + 1 }, cap - 1)

/-- The body of the clone loops: `pool->add(id)`, then
`pool->at(id).clone(src)` (payload copied), then the back pointer write
`pool->at(id).m_entity = &entity`. -/
def poolCloneIn (p : PoolData σ) (id : Nat) (srcVal : σ) (h : Nat) :
    Option (PoolData σ) :=
  (p.add id).map (fun p1 => { p1 with m_pool := p1.m_pool.set id ⟨srcVal, some h⟩ })

/-- Same-world branch of `World::addEntity(Entity&, const Entity&)`: for
every registered pool active at the source slot, clone into the new slot. -/
def cloneFromSame (reg : Registry σ) (srcId id : Nat) (h : Nat) :
    Option (Registry σ) :=
  match reg with
  | [] => some []
  | kp :: rest =>
    if kp.2.has srcId then
      match kp.2.atIdx srcId, cloneFromSame rest srcId id h with
      | some sv, some rest2 =>
        match poolCloneIn kp.2 id sv.val h with
        | some p2 => some ((kp.1, p2) :: rest2)
        | none => none
      | _, _ => none
    else
      match cloneFromSame rest srcId id h with
      | some rest2 => some (kp :: rest2)
      | none => none

/-- Cross-world branch of `World::addEntity(Entity&, const Entity&)`: walk
the source world's registry; for every type active at the source slot and
also registered here, clone into the new slot of this world's pool. -/
def cloneFromCross (dst : Registry σ) (src : Registry σ) (srcId id : Nat) (h : Nat) :
    Option (Registry σ) :=
  match src with
  | [] => some dst
  | kp :: rest =>
    if kp.2.has srcId ∧ (registryFind dst kp.1).isSome then
      match kp.2.atIdx srcId with
      | some sv =>
        match registryModifyM dst kp.1 (fun p => poolCloneIn p id sv.val h) with
        | some dst1 => cloneFromCross dst1 rest srcId id h
        | none => none
      | none => none
    else
      cloneFromCross dst rest srcId id h

/-- `World::addEntity(Entity&, const Entity&)` for a source entity living
in the same world (`other.m_world == this`). -/
def addEntitySame (w : World σ) (env : Nat → CompBehavior σ) (h : Nat)
    (srcId : Nat) : Option (World σ × Nat) :=
  match w.addEntity env h with
  | none => none
  | some wi =>
    (cloneFromSame wi.1.m_registry srcId wi.2 h).map
      (fun reg => ({ wi.1 with m_registry := reg }, wi.2))

/-- `World::addEntity(Entity&, const Entity&)` for a source entity living
in a different world. -/
def addEntityCross (w : World σ) (env : Nat → CompBehavior σ) (h : Nat)
    (src : World σ) (srcId : Nat) : Option (World σ × Nat) :=
  match w.addEntity env h with
  | none => none
  | some wi =>
    (cloneFromCross wi.1.m_registry src.m_registry srcId wi.2 h).map
      (fun reg => ({ wi.1 with m_registry := reg }, wi.2))

/-- `World::removeEntity`, world part: silently ignore a non-existent
entity; otherwise deactivate the slot in every pool, erase the back
reference positionally, then either shrink the tail (top slot) or push the
slot onto the open list.  `m_entities.erase(m_entities.begin() + m_id)`
(World.hpp:262) requires `m_id < m_entities.size()` — violating that
`std::vector::erase` precondition is undefined behaviour, modelled as
`none` (no defined result state). -/
def removeEntityW (w : World σ) (e : Entity) : Option (World σ) :=
  if w.hasEntity e then
    if e.m_id < w.m_entities.length then
      (registryRemoveAll w.m_registry e.m_id).map (fun reg =>
        { m_registry := reg
          m_entities := w.m_entities.eraseIdx e.m_id
          m_open := if e.m_id = w.m_capacity - 1 then w.m_open
                    else insertSorted e.m_id w.m_open
          m_capacity := if e.m_id = w.m_capacity - 1 then w.m_capacity - 1
                        else w.m_capacity
          m_count := w.m_count - 1 })
    else none
  else some w

/-- `World::replaceEntity`: rebind the back-reference slot at `i` to `h`
via `m_entities.at(entity.m_id) = other` (World.hpp:294); `std::vector::at`
throws `std::out_of_range` when the index is out of bounds (`none`). -/
def replaceEntity (w : World σ) (i : Nat) (h : Nat) : Option (World σ) :=
  if i < w.m_entities.length then
    some { w with m_entities := w.m_entities.set i h }
  else none

/-- Inner loop of `World::update()` for one pool: for each `i < cap`, if the
pool is active at `i` and `i` is not on the open list, run the component's
`update()` on the stored payload. -/
def updLoop (upd : σ → σ) (opn : List Nat) (p : PoolData σ) : Nat → PoolData σ
  | 0 => p
  | n + 1 =>
    let q := updLoop upd opn p n
    if q.has n && !(opn.contains n) then
      match q.m_pool[n]? with
      | some c => { q with m_pool := q.m_pool.set n ⟨upd c.val, c.m_entity⟩ }
      | none => q
    else q

/-- `World::update()`: the outer loop over the registry in key order. -/
def update (w : World σ) (env : Nat → CompBehavior σ) : World σ :=
  { w with m_registry :=
      w.m_registry.map (fun kp => (kp.1, updLoop (env kp.1).upd w.m_open kp.2 w.m_capacity)) }

/-- `World::addComponent<T>`: existence and registration checks, then - when
the slot is not already active - `add` + `clone(T(args...))` + back-pointer
write; a second add is a (debug-warning only) no-op.  Returns the world and
`at(entity.m_id)`. -/
def addComponent (w : World σ) (e : Entity) (k : Nat) (v : σ) (h : Nat) :
    Except Err (World σ × Inst σ) :=
  if w.hasEntity e = false then .error .nonexistent
  else if w.hasT k = false then .error .notRegistered
  else
    match registryFind w.m_registry k with
    | none => .error .notRegistered
    | some p =>
      if p.has e.m_id = false then
        match poolCloneIn p e.m_id v h with
        | none => .error .oob
        | some p2 =>
          match p2.atIdx e.m_id with
          | none => .error .oob
          | some inst =>
            .ok ({ w with m_registry := registryModify w.m_registry k (fun _ => p2) }, inst)
      else
        match p.atIdx e.m_id with
        | none => .error .oob
        | some inst => .ok (w, inst)

/-- `World::getComponent<T>`. -/
def getComponent (w : World σ) (e : Entity) (k : Nat) : Except Err (Inst σ) :=
  if w.hasEntity e = false then .error .nonexistent
  else if w.hasComponent e k = false then .error .notFoundC
  else
    match (registryFind w.m_registry k).bind (fun p => p.atIdx e.m_id) with
    | none => .error .oob
    | some inst => .ok inst

/-- `World::removeComponent<T>`: `m_registry.at(type)` throwing
`out_of_range` is converted to the "not added to World" runtime error; the
pool's own out-of-bounds runtime error propagates unchanged. -/
def removeComponent (w : World σ) (e : Entity) (k : Nat) : Except Err (World σ) :=
  match registryFind w.m_registry k with
  | none => .error .notAdded
  | some p =>
    match p.remove e.m_id with
    | none => .error .oob
    | some p2 => .ok { w with m_registry := registryModify w.m_registry k (fun _ => p2) }

/-- `World::clear()`, world part: drop every pool (the handle nullification
lives in `clearH`). -/
def clearW (w : World σ) : World σ := { w with m_registry := [] }

end World

/-- The store of entity handle objects. -/
abbrev Heap := Nat → Entity

/-- `Entity::Entity(World&)`: bind the handle to the world, allocate a
slot.  A throw out of `addEntity` propagates out of the constructor. -/
def mkEntity (w : World σ) (env : Nat → CompBehavior σ) (heap : Heap) (wid : Nat)
    (h : Nat) : Option (World σ × Heap) :=
  (w.addEntity env h).map
    (fun wi => (wi.1, fun x => if x = h then ⟨some wid, wi.2⟩ else heap x))

/-- `World::removeEntity` including the nullification of the removed
handle's fields. -/
def removeEntityH (w : World σ) (heap : Heap) (h : Nat) :
    Option (World σ × Heap) :=
  let e := heap h
  if w.hasEntity e then
    (w.removeEntityW e).map (fun w2 =>
      (w2, fun x => if x = h then ⟨none, 0⟩ else heap x))
  else some (w, heap)

/-- `World::clear()`: unbind every handle recorded in `m_entities`, then
drop all pools. -/
def clearH (w : World σ) (heap : Heap) : World σ × Heap :=
  (w.clearW, fun x => if w.m_entities.contains x then ⟨none, 0⟩ else heap x)

namespace Entity

variable {σ : Type}

/-- `Entity::add<T>`: invalid-state check, then `World::addComponent`. -/
def add (e : Entity) (w : World σ) (k : Nat) (v : σ) (h : Nat) :
    Except Err (World σ × Inst σ) :=
  if e.valid = false then .error .uninit else w.addComponent e k v h

/-- `Entity::has<T>`: invalid-state check, then `World::hasComponent`. -/
def hasC (e : Entity) (w : World σ) (k : Nat) : Except Err Bool :=
  if e.valid = false then .error .uninit else .ok (w.hasComponent e k)

/-- `Entity::get<T>`: invalid-state check, then `World::getComponent`. -/
def get (e : Entity) (w : World σ) (k : Nat) : Except Err (Inst σ) :=
  if e.valid = false then .error .uninit else w.getComponent e k

/-- `Entity::remove<T>`: invalid-state check, then `World::removeComponent`. -/
def removeC (e : Entity) (w : World σ) (k : Nat) : Except Err (World σ) :=
  if e.valid = false then .error .uninit else w.removeComponent e k

end Entity

/-! ### The creation-sequence world (`buildN`) -/

/-- The world obtained from registered-but-empty pools `reg0` by `n`
successive `Entity(world)` constructions with handle ids `0, …, n-1` (all
on the growth path, so no step can throw). -/
def buildN {σ : Type} (env : Nat → CompBehavior σ) (reg0 : Registry σ) :
    Nat → Option (World σ)
  | 0 => some ⟨reg0, [], [], 0, 0⟩
  | n + 1 => (buildN env reg0 n).bind (fun w => (w.addEntity env n).map Prod.fst)

/-! ### The update pass (C2) -/

/-- Spec-side map-with-index, used to state what one update pass does. -/
def mapIdxFrom (f : Nat → α → α) : Nat → List α → List α
  | _, [] => []
  | i, a :: as => f i a :: mapIdxFrom f (i + 1) as

/-- Specification-side description of one pool after `n` update passes:
read straight off the spec sentence — every slot index below the capacity
that is active in the pool and not on the free list has its payload updated
exactly `n` times, all other state is untouched. -/
def specUpdatedPool (upd : σ → σ) (opn : List Nat) (cap n : Nat) (p : PoolData σ) :
    PoolData σ :=
  { m_pool := mapIdxFrom (fun j c =>
      if j < cap ∧ p.has j = true ∧ j ∉ opn then ⟨upd^[n] c.val, c.m_entity⟩ else c)
      0 p.m_pool
    m_active := p.m_active }

/-- The pool state produced by the clone-loop body on one destination pool:
slot `id` activated, the source payload copied in, the back pointer aimed
at handle `h`. -/
def clonedPool {σ : Type} (dp : PoolData σ) (id : Nat) (v : σ) (h : Nat) : PoolData σ :=
  ⟨dp.m_pool.set id ⟨v, some h⟩, dp.m_active.set id true⟩

/-! ### C5: the clear-misses-a-live-handle trace -/

/-- All-unbound initial handle store. -/
def c5heap0 : Heap := fun _ => ⟨none, 0⟩

/-- `Entity a(world)` with handle id 0 (growth path: cannot throw). -/
def c5s1 : World Nat × Heap :=
  (mkEntity (emptyWorld Nat) (fun _ => ⟨0, Nat.succ⟩) c5heap0 0 0).getD
    (emptyWorld Nat, c5heap0)

/-- `Entity b(world)` with handle id 1 (growth path: cannot throw). -/
def c5s2 : World Nat × Heap :=
  (mkEntity c5s1.1 (fun _ => ⟨0, Nat.succ⟩) c5s1.2 0 1).getD (emptyWorld Nat, c5heap0)

/-- `Entity c(world)` with handle id 2 (growth path: cannot throw). -/
def c5s3 : World Nat × Heap :=
  (mkEntity c5s2.1 (fun _ => ⟨0, Nat.succ⟩) c5s2.2 0 2).getD (emptyWorld Nat, c5heap0)

/-- `a.reset()` — release the non-top slot 0 held by handle 0. -/
def c5s4 : World Nat × Heap :=
  (removeEntityH c5s3.1 c5s3.2 0).getD (emptyWorld Nat, c5heap0)

/-- `Entity d(world)` with handle id 3 — reuses slot 0 (in range: index 0
against a vector of size 2), and the positional write `m_entities.at(0) = d`
lands on the back-reference vector that `removeEntity` had compacted,
overwriting the record of handle 1. -/
def c5s5 : World Nat × Heap :=
  (mkEntity c5s4.1 (fun _ => ⟨0, Nat.succ⟩) c5s4.2 0 3).getD (emptyWorld Nat, c5heap0)

/-- `world.clear()`. -/
def c5s6 : World Nat × Heap := clearH c5s5.1 c5s5.2

/-- The well-formedness facts every reachable world satisfies: the registry
keys and the free list are strictly sorted, free-list members are below the
capacity, and every pool's two sequences have equal length bounded below by
the capacity. -/
def WF {σ : Type} (w : World σ) : Prop :=
  List.Chain' (· < ·) (registryKeys w.m_registry) ∧
  List.Chain' (· < ·) w.m_open ∧
  (∀ i ∈ w.m_open, i < w.m_capacity) ∧
  (∀ kp ∈ w.m_registry, kp.2.m_active.length = kp.2.m_pool.length ∧
    w.m_capacity ≤ kp.2.m_pool.length)

/-- One application of any public world-mutating operation. -/
inductive Step {σ : Type} (env : Nat → CompBehavior σ) : World σ → World σ → Prop
  | regT (w : World σ) (k : Nat) : Step env w (w.addT env k)
  | unregT (w : World σ) (k : Nat) : Step env w (w.removeT k)
  | clearStep (w : World σ) : Step env w w.clearW
  | updateStep (w : World σ) : Step env w (w.update env)
  | addEnt (w : World σ) (h : Nat) (wi : World σ × Nat) :
      w.addEntity env h = some wi → Step env w wi.1
  | cloneSame (w : World σ) (h srcId : Nat) (w2 : World σ) (id : Nat) :
      w.addEntitySame env h srcId = some (w2, id) → Step env w w2
  | cloneCross (w : World σ) (h : Nat) (src : World σ) (srcId : Nat)
      (w2 : World σ) (id : Nat) :
      w.addEntityCross env h src srcId = some (w2, id) → Step env w w2
  | removeEnt (w : World σ) (e : Entity) (w2 : World σ) :
      w.removeEntityW e = some w2 → Step env w w2
  | addComp (w : World σ) (e : Entity) (k : Nat) (v : σ) (h : Nat)
      (w2 : World σ) (inst : Inst σ) :
      w.addComponent e k v h = .ok (w2, inst) → Step env w w2
  | removeComp (w : World σ) (e : Entity) (k : Nat) (w2 : World σ) :
      w.removeComponent e k = .ok w2 → Step env w w2
  | replaceEnt (w : World σ) (i h : Nat) (w2 : World σ) :
      w.replaceEntity i h = some w2 → Step env w w2

/-- Worlds reachable from a default-constructed `World` by the public API. -/
def Reach {σ : Type} (env : Nat → CompBehavior σ) (w : World σ) : Prop :=
  Relation.ReflTransGen (Step env) (emptyWorld σ) w

/-! ### Basic list lemmas -/

theorem listResize_length (l : List α) (n : Nat) (d : α) :
    (listResize l n d).length = n := by
  unfold listResize
  split
  · simp [List.length_take]; omega
  · simp; omega

theorem listResize_replicate (n : Nat) (d : α) :
    listResize (List.replicate n d) (n + 1) d = List.replicate (n + 1) d := by
  unfold listResize
  rw [List.length_replicate]
  split
  · omega
  · have h1 : n + 1 - n = 1 := by omega
    rw [h1, ← List.replicate_add]

theorem set_replicate_self (n i : Nat) (a : α) :
    (List.replicate n a).set i a = List.replicate n a := by
  induction n generalizing i with
  | zero => rfl
  | succ m ih =>
    cases i with
    | zero => simp [List.replicate_succ]
    | succ j => simp [List.replicate_succ, List.set, ih]

/-! ### insertSorted lemmas -/

theorem insertSorted_mem (i : Nat) (l : List Nat) (j : Nat) :
    j ∈ insertSorted i l ↔ j = i ∨ j ∈ l := by
  induction l with
  | nil => simp [insertSorted]
  | cons a rest ih =>
    unfold insertSorted
    split
    · simp
    · split
      · next h1 h2 =>
          subst h2
          simp only [List.mem_cons]
          tauto
      · simp [ih]; tauto

theorem insertSorted_chain (i : Nat) (l : List Nat)
    (hs : List.Chain' (· < ·) l) :
    List.Chain' (· < ·) (insertSorted i l) := by
  induction l with
  | nil => simp [insertSorted]
  | cons a rest ih =>
    unfold insertSorted
    rw [List.chain'_cons'] at hs
    split
    · next hlt =>
      rw [List.chain'_cons]
      exact ⟨hlt, List.chain'_cons'.mpr hs⟩
    · split
      · exact List.chain'_cons'.mpr hs
      · next h1 h2 =>
        have hai : a < i := by omega
        rw [List.chain'_cons']
        refine ⟨?_, ih hs.2⟩
        intro y hy
        have hy2 := List.mem_of_mem_head? hy
        rw [insertSorted_mem] at hy2
        rcases hy2 with rfl | hmem
        · exact hai
        · cases hrest : rest with
          | nil => simp [hrest] at hmem
          | cons b tl =>
            subst hrest
            have hab : a < b := hs.1 b rfl
            rw [List.chain'_cons'] at hs
            rcases List.mem_cons.mp hmem with rfl | htl
            · exact hab
            · have : List.Pairwise (· < ·) (b :: tl) :=
                List.chain'_iff_pairwise.mp (List.chain'_cons'.mpr hs.2)
              exact lt_trans hab (List.rel_of_pairwise_cons this htl)

/-! ### PoolData lemmas -/

namespace PoolData

variable {σ : Type}

theorem remove_eq_some {p : PoolData σ} {i : Nat} (h : i < p.m_active.length) :
    p.remove i = some { p with m_active := p.m_active.set i false } := by
  unfold remove
  rw [if_pos h]

theorem remove_lengths {p p2 : PoolData σ} {i : Nat} (h : p.remove i = some p2) :
    p2.m_pool = p.m_pool ∧ p2.m_active.length = p.m_active.length := by
  unfold remove at h
  split at h
  · cases h; simp
  · cases h

theorem add_eq_some {p : PoolData σ} {i : Nat} (h : i < p.m_pool.length) :
    p.add i = some { p with m_active := p.m_active.set i true } := by
  unfold add
  rw [if_neg (by omega)]

theorem resize_length (p : PoolData σ) (n : Nat) (d : σ) :
    (p.resize n d).m_pool.length = n ∧ (p.resize n d).m_active.length = n := by
  unfold resize
  exact ⟨listResize_length .., listResize_length ..⟩

end PoolData

/-- C10: `ComponentPool::remove(i)` at an in-bounds index succeeds and
changes only the active flag at `i`: the instance sequence is untouched, the
flag sequence keeps its length, the flag at `i` becomes false and every
other flag is unchanged.  (`has` and `at` are pure observations in this
embedding, returning no modified pool at all, mirroring that their C++
bodies perform no writes.) -/
theorem c10_remove_frame {σ : Type} (p : PoolData σ) (i : Nat)
    (h : i < p.m_active.length) :
    ∃ p2, p.remove i = some p2 ∧
      p2.m_pool = p.m_pool ∧
      p2.m_active.length = p.m_active.length ∧
      p2.m_active[i]? = some false ∧
      ∀ j, j ≠ i → p2.m_active[j]? = p.m_active[j]? := by
  refine ⟨_, PoolData.remove_eq_some h, rfl, by simp, ?_, ?_⟩
  · simp [List.getElem?_set_self', List.getElem?_eq_getElem h]
  · intro j hj
    exact List.getElem?_set_ne (Ne.symm hj)

/-- Witness for C10 at a concrete one-slot pool. -/
theorem c10_remove_frame_witness :
    ∃ p2, (⟨[⟨0, none⟩], [true]⟩ : PoolData Nat).remove 0 = some p2 ∧
      p2.m_pool = [⟨0, none⟩] ∧
      p2.m_active.length = 1 ∧
      p2.m_active[0]? = some false ∧
      ∀ j, j ≠ 0 → p2.m_active[j]? = ([true] : List Bool)[j]? :=
  c10_remove_frame ⟨[⟨0, none⟩], [true]⟩ 0 (by decide)

/-! ### hasEntity and removeEntity lemmas -/

theorem hasEntity_iff {σ : Type} {w : World σ} {e : Entity} :
    w.hasEntity e = true ↔ (e.m_id ∉ w.m_open ∧ e.m_id < w.m_capacity) := by
  unfold World.hasEntity
  by_cases hm : e.m_id ∈ w.m_open
  · rw [if_pos (Or.inl (by simpa using hm))]
    constructor
    · intro h; simp at h
    · intro hand; exact absurd hm hand.1
  · by_cases hcap : w.m_capacity ≤ e.m_id
    · rw [if_pos (Or.inr hcap)]
      constructor
      · intro h; simp at h
      · intro hand
        exfalso
        obtain ⟨h1, h2⟩ := hand
        omega
    · rw [if_neg ?_]
      · constructor
        · intro _
          refine ⟨hm, ?_⟩
          omega
        · intro _; rfl
      · intro hor
        rcases hor with h1 | h2
        · exact hm (by simpa using h1)
        · exact hcap h2

theorem registryRemoveAll_eq_some {σ : Type} {r : Registry σ} {i : Nat}
    (h : ∀ kp ∈ r, i < kp.2.m_active.length) :
    registryRemoveAll r i =
      some (r.map (fun kp => (kp.1, { kp.2 with m_active := kp.2.m_active.set i false }))) := by
  induction r with
  | nil => rfl
  | cons kp rest ih =>
    unfold registryRemoveAll
    rw [PoolData.remove_eq_some (h kp (by simp)), ih (fun q hq => h q (by simp [hq]))]
    rfl

theorem removeEntityW_eq {σ : Type} {w : World σ} {e : Entity}
    (he : w.hasEntity e = true) (hlt : e.m_id < w.m_entities.length)
    (hlen : ∀ kp ∈ w.m_registry, e.m_id < kp.2.m_active.length) :
    w.removeEntityW e = some
      { m_registry := w.m_registry.map
          (fun kp => (kp.1, { kp.2 with m_active := kp.2.m_active.set e.m_id false }))
        m_entities := w.m_entities.eraseIdx e.m_id
        m_open := if e.m_id = w.m_capacity - 1 then w.m_open
                  else insertSorted e.m_id w.m_open
        m_capacity := if e.m_id = w.m_capacity - 1 then w.m_capacity - 1
                      else w.m_capacity
        m_count := w.m_count - 1 } := by
  unfold World.removeEntityW
  rw [he, if_pos rfl, if_pos hlt, registryRemoveAll_eq_some hlen]
  rfl

theorem addEntity_reuse {σ : Type} {w : World σ} (env : Nat → CompBehavior σ)
    (h i : Nat) (rest : List Nat) (hopen : w.m_open = i :: rest)
    (hlt : i < w.m_entities.length) :
    w.addEntity env h =
      some ({ w with m_open := rest
                     m_entities := w.m_entities.set i h
                     m_count := w.m_count + 1 }, i) := by
  unfold World.addEntity
  rw [hopen]
  show (if i < w.m_entities.length then
      some ({ w with m_open := rest
                     m_entities := w.m_entities.set i h
                     m_count := w.m_count + 1 }, i)
    else none) = _
  rw [if_pos hlt]

theorem addEntity_oob {σ : Type} {w : World σ} (env : Nat → CompBehavior σ)
    (h i : Nat) (rest : List Nat) (hopen : w.m_open = i :: rest)
    (hge : w.m_entities.length ≤ i) :
    w.addEntity env h = none := by
  unfold World.addEntity
  rw [hopen]
  show (if i < w.m_entities.length then
      some ({ w with m_open := rest
                     m_entities := w.m_entities.set i h
                     m_count := w.m_count + 1 }, i)
    else none) = _
  rw [if_neg (by omega)]

theorem addEntity_grow {σ : Type} {w : World σ} (env : Nat → CompBehavior σ)
    (h : Nat) (hopen : w.m_open = []) :
    w.addEntity env h =
      some ({ w with m_capacity := w.m_capacity + 1
                     m_registry := w.m_registry.map
                       (fun kp => (kp.1, kp.2.resize (w.m_capacity + 1) (env kp.1).dflt))
                     m_entities := w.m_entities ++ [h]
                     m_count := w.m_count + 1 }, w.m_capacity) := by
  unfold World.addEntity
  rw [hopen]
  rfl

theorem buildN_spec {σ : Type} (env : Nat → CompBehavior σ) (reg0 : Registry σ)
    (hreg : ∀ kp ∈ reg0, kp.2 = ⟨[], []⟩) (n : Nat) :
    buildN env reg0 n =
      some ⟨reg0.map (fun kp =>
          (kp.1, ⟨List.replicate n ⟨(env kp.1).dflt, none⟩, List.replicate n false⟩)),
       List.range n, [], n, n⟩ := by
  induction n with
  | zero =>
    show some (World.mk reg0 [] [] 0 0) = _
    have h1 : reg0.map (fun kp =>
        (kp.1, (⟨List.replicate 0 ⟨(env kp.1).dflt, none⟩,
                 List.replicate 0 false⟩ : PoolData σ))) = reg0.map id :=
      List.map_congr_left (fun kp hk => by
        simp only [List.replicate_zero, id]
        rw [← hreg kp hk])
    rw [h1, List.map_id]
    rfl
  | succ m ih =>
    show (buildN env reg0 m).bind (fun w => (w.addEntity env m).map Prod.fst) = _
    rw [ih]
    show ((World.mk (reg0.map (fun kp =>
          (kp.1, ⟨List.replicate m ⟨(env kp.1).dflt, none⟩, List.replicate m false⟩)))
        (List.range m) [] m m).addEntity env m).map Prod.fst = _
    rw [addEntity_grow env m rfl]
    show some (World.mk
        ((reg0.map (fun kp =>
            (kp.1, (⟨List.replicate m ⟨(env kp.1).dflt, none⟩,
                    List.replicate m false⟩ : PoolData σ)))).map
          (fun kp => (kp.1, kp.2.resize (m + 1) (env kp.1).dflt)))
        (List.range m ++ [m]) [] (m + 1) (m + 1)) = _
    rw [List.map_map, ← List.range_succ]
    congr 2
    refine List.map_congr_left (fun kp _ => ?_)
    simp only [Function.comp_apply]
    unfold PoolData.resize
    simp only [listResize_replicate]


theorem head_le_of_chain_lt {i : Nat} {rest : List Nat}
    (hs : List.Chain' (· < ·) (i :: rest)) :
    ∀ j ∈ i :: rest, i ≤ j := by
  intro j hj
  rcases List.mem_cons.mp hj with rfl | hmem
  · exact le_refl j
  · have hp : List.Pairwise (· < ·) (i :: rest) := List.chain'_iff_pairwise.mp hs
    exact le_of_lt (List.rel_of_pairwise_cons hp hmem)

/-- C1, counterexample to the unconditional reuse clause: three creations
(slots 0, 1, 2), releases of slots 0 and 1, and one re-creation leave the
free list `[1]` and the back-reference vector `[3]` (one element).  The
next `addEntity` should, per the claim, succeed and hand out the lowest
free index 1; instead the positional write `m_entities.at(1) = entity`
(World.hpp:177) throws `std::out_of_range`, i.e. evaluates to `none`. -/
theorem c1_counterexample :
    ((emptyWorld Nat).addEntity (fun _ => ⟨0, Nat.succ⟩) 0 =
       some (⟨[], [0], [], 1, 1⟩, 0)) ∧
    ((⟨[], [0], [], 1, 1⟩ : World Nat).addEntity (fun _ => ⟨0, Nat.succ⟩) 1 =
       some (⟨[], [0, 1], [], 2, 2⟩, 1)) ∧
    ((⟨[], [0, 1], [], 2, 2⟩ : World Nat).addEntity (fun _ => ⟨0, Nat.succ⟩) 2 =
       some (⟨[], [0, 1, 2], [], 3, 3⟩, 2)) ∧
    ((⟨[], [0, 1, 2], [], 3, 3⟩ : World Nat).removeEntityW ⟨some 0, 0⟩ =
       some ⟨[], [1, 2], [0], 3, 2⟩) ∧
    ((⟨[], [1, 2], [0], 3, 2⟩ : World Nat).removeEntityW ⟨some 0, 1⟩ =
       some ⟨[], [1], [0, 1], 3, 1⟩) ∧
    ((⟨[], [1], [0, 1], 3, 1⟩ : World Nat).addEntity (fun _ => ⟨0, Nat.succ⟩) 3 =
       some (⟨[], [3], [1], 3, 2⟩, 0)) ∧
    ((⟨[], [3], [1], 3, 2⟩ : World Nat).m_open = [1]) ∧
    ((⟨[], [3], [1], 3, 2⟩ : World Nat).addEntity (fun _ => ⟨0, Nat.succ⟩) 4 =
       none) :=
  ⟨rfl, rfl, rfl, rfl, rfl, rfl, rfl, rfl⟩

/-- C1 amended: slot allocation.  (a) With a non-empty free list whose head
is within the back-reference vector, `addEntity` returns that head, which
is the least free index, pops it, and leaves the capacity unchanged; when
the head is NOT within the back-reference vector the call instead throws
`std::out_of_range` from `m_entities.at` (`none`).  (b) With an empty free
list it grows the capacity by one, resizes every registered pool to the new
capacity, and returns the new top index.  (c) After `N` fresh creations, a
removal of the entity at index `k` (with `k` occupied and not the top
index) followed by one more creation hands out index `k` again. -/
theorem c1_slot_allocation {σ : Type} (env : Nat → CompBehavior σ) :
    (∀ (w : World σ) (h i : Nat) (rest : List Nat),
       w.m_open = i :: rest → List.Chain' (· < ·) w.m_open →
       i < w.m_entities.length →
       ∃ wi, w.addEntity env h = some wi ∧
         wi.2 = i ∧
         (∀ j ∈ w.m_open, wi.2 ≤ j) ∧
         wi.1.m_open = rest ∧
         wi.1.m_capacity = w.m_capacity) ∧
    (∀ (w : World σ) (h i : Nat) (rest : List Nat),
       w.m_open = i :: rest → w.m_entities.length ≤ i →
       w.addEntity env h = none) ∧
    (∀ (w : World σ) (h : Nat),
       w.m_open = [] →
       ∃ wi, w.addEntity env h = some wi ∧
         wi.2 = w.m_capacity ∧
         wi.1.m_capacity = w.m_capacity + 1 ∧
         wi.1.m_registry =
           w.m_registry.map
             (fun kp => (kp.1, kp.2.resize (w.m_capacity + 1) (env kp.1).dflt))) ∧
    (∀ (reg0 : Registry σ) (N k : Nat),
       (∀ kp ∈ reg0, kp.2 = ⟨[], []⟩) → k < N → k ≠ N - 1 →
       ∃ wN, buildN env reg0 N = some wN ∧
       ∃ w2, wN.removeEntityW ⟨some 0, k⟩ = some w2 ∧
             ∀ h2, ∃ wi, w2.addEntity env h2 = some wi ∧ wi.2 = k) := by
  refine ⟨?_, ?_, ?_, ?_⟩
  · intro w h i rest hopen hchain hlt
    refine ⟨_, addEntity_reuse env h i rest hopen hlt, rfl, ?_, rfl, rfl⟩
    rw [hopen] at hchain ⊢
    exact head_le_of_chain_lt hchain
  · intro w h i rest hopen hge
    exact addEntity_oob env h i rest hopen hge
  · intro w h hopen
    exact ⟨_, addEntity_grow env h hopen, rfl, rfl, rfl⟩
  · intro reg0 N k hreg hk hkne
    refine ⟨_, buildN_spec env reg0 hreg N, ?_⟩
    have he : (⟨List.map (fun kp =>
        (kp.1, (⟨List.replicate N ⟨(env kp.1).dflt, none⟩,
                List.replicate N false⟩ : PoolData σ))) reg0,
        List.range N, [], N, N⟩ : World σ).hasEntity ⟨some 0, k⟩ = true := by
      rw [hasEntity_iff]
      exact ⟨by simp, hk⟩
    rw [removeEntityW_eq he (by simpa using hk) (by
      intro kp hkp
      rw [List.mem_map] at hkp
      obtain ⟨q, _, rfl⟩ := hkp
      simpa using hk)]
    refine ⟨_, rfl, ?_⟩
    intro h2
    have hne : k ≠ N - 1 := hkne
    rw [if_neg hne]
    have hlen2 : ((List.range N).eraseIdx k).length = N - 1 := by
      rw [List.length_eraseIdx]
      simp only [List.length_range]
      rw [if_pos hk]
    have hlt2 : k < ((List.range N).eraseIdx k).length := by
      rw [hlen2]
      omega
    exact ⟨_, addEntity_reuse env h2 k [] rfl hlt2, rfl⟩

/-- Witness for C1 at concrete inputs: a world whose free list is `[1, 2]`
with three tracked back references (parts a), a one-tracked-entity world
whose free list starts at 2 (the throwing clause), a fresh world of
capacity 2 (part b), and the scenario with one registered type, `N = 3`,
`k = 1` (part c). -/
theorem c1_slot_allocation_witness :
    (∃ wi, (⟨[], [0, 9, 8], [1, 2], 3, 1⟩ : World Nat).addEntity
         (fun _ => ⟨0, Nat.succ⟩) 7 = some wi ∧
       wi.2 = 1 ∧ wi.1.m_open = [2]) ∧
    ((⟨[], [5], [2], 3, 1⟩ : World Nat).addEntity (fun _ => ⟨0, Nat.succ⟩) 7 =
       none) ∧
    (∃ wi, (⟨[], [0, 1], [], 2, 2⟩ : World Nat).addEntity
         (fun _ => ⟨0, Nat.succ⟩) 7 = some wi ∧
       wi.2 = 2 ∧ wi.1.m_capacity = 3) ∧
    (∃ wN, buildN (fun _ => (⟨0, Nat.succ⟩ : CompBehavior Nat))
         [(0, ⟨[], []⟩)] 3 = some wN ∧
     ∃ w2, wN.removeEntityW ⟨some 0, 1⟩ = some w2 ∧
       ∀ h2, ∃ wi, w2.addEntity (fun _ => ⟨0, Nat.succ⟩) h2 = some wi ∧
         wi.2 = 1) := by
  refine ⟨?_, ?_, ?_, ?_⟩
  · obtain ⟨wi, hwi, h1, _, h3, _⟩ := (c1_slot_allocation (σ := Nat)
      (fun _ => ⟨0, Nat.succ⟩)).1
      ⟨[], [0, 9, 8], [1, 2], 3, 1⟩ 7 1 [2] rfl (by simp) (by decide)
    exact ⟨wi, hwi, h1, h3⟩
  · exact (c1_slot_allocation (σ := Nat) (fun _ => ⟨0, Nat.succ⟩)).2.1
      ⟨[], [5], [2], 3, 1⟩ 7 2 [] rfl (by decide)
  · obtain ⟨wi, hwi, h1, h2, _⟩ := (c1_slot_allocation (σ := Nat)
      (fun _ => ⟨0, Nat.succ⟩)).2.2.1
      ⟨[], [0, 1], [], 2, 2⟩ 7 rfl
    exact ⟨wi, hwi, h1, h2⟩
  · exact (c1_slot_allocation (σ := Nat) (fun _ => ⟨0, Nat.succ⟩)).2.2.2
      [(0, ⟨[], []⟩)] 3 1 (by decide) (by decide) (by decide)

/-- C9, counterexample to the unconditional top-release clause: after three
creations and the release of slot 0 the world has capacity 3, free list
`[0]` and the compacted back-reference vector `[1, 2]` (two elements).
Releasing the entity at the top slot 2 should, per the claim, decrement the
capacity to 2; instead `m_entities.erase(m_entities.begin() + 2)`
(World.hpp:262) is `vector::erase` past the end — undefined behaviour,
i.e. `none` in the model. -/
theorem c9_counterexample :
    ((emptyWorld Nat).addEntity (fun _ => ⟨0, Nat.succ⟩) 0 =
       some (⟨[], [0], [], 1, 1⟩, 0)) ∧
    ((⟨[], [0], [], 1, 1⟩ : World Nat).addEntity (fun _ => ⟨0, Nat.succ⟩) 1 =
       some (⟨[], [0, 1], [], 2, 2⟩, 1)) ∧
    ((⟨[], [0, 1], [], 2, 2⟩ : World Nat).addEntity (fun _ => ⟨0, Nat.succ⟩) 2 =
       some (⟨[], [0, 1, 2], [], 3, 3⟩, 2)) ∧
    ((⟨[], [0, 1, 2], [], 3, 3⟩ : World Nat).removeEntityW ⟨some 0, 0⟩ =
       some ⟨[], [1, 2], [0], 3, 2⟩) ∧
    ((⟨[], [1, 2], [0], 3, 2⟩ : World Nat).hasEntity ⟨some 0, 2⟩ = true) ∧
    ((2 : Nat) = 3 - 1) ∧
    ((⟨[], [1, 2], [0], 3, 2⟩ : World Nat).removeEntityW ⟨some 0, 2⟩ = none) :=
  ⟨rfl, rfl, rfl, rfl, rfl, rfl, rfl⟩

/-- C9 amended: slot reclamation, on slots whose index is still within the
back-reference vector (`vector::erase` is undefined behaviour otherwise).
Releasing the top slot (`capacity - 1`) decrements the capacity and adds
nothing to the free list; releasing any non-top occupied slot inserts that
index into the free list and keeps the capacity; creating `N` entities and
deleting the most recent one returns the capacity to `N - 1` with an empty
free list. -/
theorem c9_tail_compaction {σ : Type} (env : Nat → CompBehavior σ) :
    (∀ (w : World σ) (e : Entity),
       w.hasEntity e = true → e.m_id = w.m_capacity - 1 →
       e.m_id < w.m_entities.length →
       (∀ kp ∈ w.m_registry, e.m_id < kp.2.m_active.length) →
       ∃ w2, w.removeEntityW e = some w2 ∧
             w2.m_capacity = w.m_capacity - 1 ∧ w2.m_open = w.m_open) ∧
    (∀ (w : World σ) (e : Entity),
       w.hasEntity e = true → e.m_id ≠ w.m_capacity - 1 →
       e.m_id < w.m_entities.length →
       (∀ kp ∈ w.m_registry, e.m_id < kp.2.m_active.length) →
       ∃ w2, w.removeEntityW e = some w2 ∧
             w2.m_capacity = w.m_capacity ∧
             w2.m_open = insertSorted e.m_id w.m_open) ∧
    (∀ (reg0 : Registry σ) (N : Nat),
       (∀ kp ∈ reg0, kp.2 = ⟨[], []⟩) → 0 < N →
       ∃ wN, buildN env reg0 N = some wN ∧
       ∃ w2, wN.removeEntityW ⟨some 0, N - 1⟩ = some w2 ∧
             w2.m_capacity = N - 1 ∧ w2.m_open = []) := by
  refine ⟨?_, ?_, ?_⟩
  · intro w e he htop hlt hlen
    rw [removeEntityW_eq he hlt hlen]
    exact ⟨_, rfl, by simp [htop], by simp [htop]⟩
  · intro w e he htop hlt hlen
    rw [removeEntityW_eq he hlt hlen]
    exact ⟨_, rfl, by simp [if_neg htop], by simp [if_neg htop]⟩
  · intro reg0 N hreg hN
    refine ⟨_, buildN_spec env reg0 hreg N, ?_⟩
    have he : (⟨List.map (fun kp =>
        (kp.1, (⟨List.replicate N ⟨(env kp.1).dflt, none⟩,
                List.replicate N false⟩ : PoolData σ))) reg0,
        List.range N, [], N, N⟩ : World σ).hasEntity ⟨some 0, N - 1⟩ = true := by
      rw [hasEntity_iff]
      refine ⟨by simp, ?_⟩
      show N - 1 < N
      omega
    rw [removeEntityW_eq he (by simp; omega) (by
      intro kp hkp
      rw [List.mem_map] at hkp
      obtain ⟨q, _, rfl⟩ := hkp
      simp
      omega)]
    exact ⟨_, rfl, by simp, by simp⟩

/-- Witness for C9: the top-release and non-top-release clauses on a
two-slot world with one registered pool, and the scenario at `N = 2`. -/
theorem c9_tail_compaction_witness :
    (∃ w2, (⟨[(0, ⟨[⟨5, none⟩, ⟨6, none⟩], [true, true]⟩)], [0, 1], [], 2, 2⟩ :
              World Nat).removeEntityW ⟨some 0, 1⟩ = some w2 ∧
           w2.m_capacity = 1 ∧ w2.m_open = []) ∧
    (∃ w2, (⟨[(0, ⟨[⟨5, none⟩, ⟨6, none⟩], [true, true]⟩)], [0, 1], [], 2, 2⟩ :
              World Nat).removeEntityW ⟨some 0, 0⟩ = some w2 ∧
           w2.m_capacity = 2 ∧ w2.m_open = [0]) ∧
    (∃ wN, buildN (fun _ => (⟨0, Nat.succ⟩ : CompBehavior Nat))
         [(0, ⟨[], []⟩)] 2 = some wN ∧
     ∃ w2, wN.removeEntityW ⟨some 0, 1⟩ = some w2 ∧
           w2.m_capacity = 1 ∧ w2.m_open = []) := by
  refine ⟨?_, ?_, ?_⟩
  · exact (c9_tail_compaction (σ := Nat) (fun _ => ⟨0, Nat.succ⟩)).1
      ⟨[(0, ⟨[⟨5, none⟩, ⟨6, none⟩], [true, true]⟩)], [0, 1], [], 2, 2⟩
      ⟨some 0, 1⟩ (by decide) (by decide) (by decide) (by decide)
  · have hc := (c9_tail_compaction (σ := Nat) (fun _ => ⟨0, Nat.succ⟩)).2.1
      ⟨[(0, ⟨[⟨5, none⟩, ⟨6, none⟩], [true, true]⟩)], [0, 1], [], 2, 2⟩
      ⟨some 0, 0⟩ (by decide) (by decide) (by decide) (by decide)
    obtain ⟨w2, hw2, hcap, hopen⟩ := hc
    exact ⟨w2, hw2, hcap, hopen⟩
  · exact (c9_tail_compaction (σ := Nat) (fun _ => ⟨0, Nat.succ⟩)).2.2
      [(0, ⟨[], []⟩)] 2 (by decide) (by decide)

theorem mapIdxFrom_getElem? (f : Nat → α → α) (i j : Nat) (l : List α) :
    (mapIdxFrom f i l)[j]? = (l[j]?).map (f (i + j)) := by
  induction l generalizing i j with
  | nil => simp [mapIdxFrom]
  | cons a as ih =>
    cases j with
    | zero => simp [mapIdxFrom]
    | succ m =>
      have h1 : (mapIdxFrom f i (a :: as))[m + 1]? = (mapIdxFrom f (i + 1) as)[m]? := by
        simp [mapIdxFrom]
      have h2 : (a :: as)[m + 1]? = as[m]? := by simp
      rw [h1, h2, ih (i + 1) m]
      have h3 : i + 1 + m = i + (m + 1) := by omega
      rw [h3]

theorem mapIdxFrom_length (f : Nat → α → α) (i : Nat) (l : List α) :
    (mapIdxFrom f i l).length = l.length := by
  induction l generalizing i with
  | nil => rfl
  | cons a as ih => simp [mapIdxFrom, ih]

theorem updLoop_active (upd : σ → σ) (opn : List Nat) (p : PoolData σ) (m : Nat) :
    (World.updLoop upd opn p m).m_active = p.m_active := by
  induction m with
  | zero => rfl
  | succ k ih =>
    show (let q := World.updLoop upd opn p k; _ : PoolData σ).m_active = _
    simp only [World.updLoop]
    split
    · split
      · simpa using ih
      · exact ih
    · exact ih

theorem updLoop_has (upd : σ → σ) (opn : List Nat) (p : PoolData σ) (m j : Nat) :
    (World.updLoop upd opn p m).has j = p.has j := by
  unfold PoolData.has
  rw [updLoop_active]

theorem updPoolCond_shift {σ : Type} (upd : σ → σ) (p : PoolData σ) (opn : List Nat)
    (k j : Nat) (hj : j ≠ k) (c : Inst σ) :
    (if j < k ∧ p.has j = true ∧ j ∉ opn then (⟨upd c.val, c.m_entity⟩ : Inst σ) else c) =
    (if j < k + 1 ∧ p.has j = true ∧ j ∉ opn then (⟨upd c.val, c.m_entity⟩ : Inst σ) else c) := by
  by_cases h2 : p.has j = true ∧ j ∉ opn
  · by_cases h1 : j < k
    · rw [if_pos ⟨h1, h2⟩, if_pos ⟨by omega, h2⟩]
    · have h3 : ¬ j < k + 1 := by omega
      rw [if_neg (fun hx => h1 hx.1), if_neg (fun hx => h3 hx.1)]
  · rw [if_neg (fun hx => h2 ⟨hx.2.1, hx.2.2⟩), if_neg (fun hx => h2 ⟨hx.2.1, hx.2.2⟩)]

theorem updLoop_getElem? (upd : σ → σ) (opn : List Nat) (p : PoolData σ) (m j : Nat) :
    (World.updLoop upd opn p m).m_pool[j]? =
      (p.m_pool[j]?).map (fun c =>
        if j < m ∧ p.has j = true ∧ j ∉ opn then ⟨upd c.val, c.m_entity⟩ else c) := by
  induction m generalizing j with
  | zero =>
    cases hc : p.m_pool[j]? <;> simp [World.updLoop, hc]
  | succ k ih =>
    have hq : World.updLoop upd opn p (k + 1) =
        (let q := World.updLoop upd opn p k
         if q.has k && !(opn.contains k) then
           match q.m_pool[k]? with
           | some c => { q with m_pool := q.m_pool.set k ⟨upd c.val, c.m_entity⟩ }
           | none => q
         else q) := rfl
    rw [hq]
    simp only
    have hqk : (World.updLoop upd opn p k).m_pool[k]? = p.m_pool[k]? := by
      rw [ih k]
      cases hc : p.m_pool[k]? with
      | none => rfl
      | some c => simp
    by_cases hcond : p.has k = true ∧ k ∉ opn
    · have hcb : ((World.updLoop upd opn p k).has k && !opn.contains k) = true := by
        rw [updLoop_has, hcond.1]
        have h4 : opn.contains k = false :=
          Bool.eq_false_iff.mpr (fun hc => hcond.2 (List.mem_of_elem_eq_true hc))
        rw [h4]
        rfl
      rw [if_pos hcb]
      split
      · next c heq =>
        have hpk : p.m_pool[k]? = some c := by rw [← hqk, heq]
        by_cases hj : j = k
        · subst hj
          have hlen : j < (World.updLoop upd opn p j).m_pool.length :=
            (List.getElem?_eq_some_iff.mp heq).1
          rw [List.getElem?_set_eq_of_lt _ hlen, hpk]
          simp only [Option.map_some']
          have hcc : j < j + 1 ∧ p.has j = true ∧ j ∉ opn := ⟨by omega, hcond.1, hcond.2⟩
          rw [if_pos hcc]
        · rw [List.getElem?_set_ne (h := fun hk => hj hk.symm), ih j]
          cases hcj : p.m_pool[j]? with
          | none => rfl
          | some d =>
            simp only [Option.map_some']
            rw [updPoolCond_shift upd p opn k j hj d]
      · next heq =>
        have hpk : p.m_pool[k]? = none := by rw [← hqk, heq]
        rw [ih j]
        by_cases hj : j = k
        · subst hj
          rw [hpk]
          rfl
        · cases hcj : p.m_pool[j]? with
          | none => rfl
          | some d =>
            simp only [Option.map_some']
            rw [updPoolCond_shift upd p opn k j hj d]
    · have hcb : ((World.updLoop upd opn p k).has k && !opn.contains k) = false := by
        rw [updLoop_has]
        by_cases h1 : p.has k = true
        · have h2 : k ∈ opn := by
            by_contra h3
            exact hcond ⟨h1, h3⟩
          have h4 : opn.contains k = true := List.elem_eq_true_of_mem h2
          rw [h1, h4]
          rfl
        · have h1f : p.has k = false := by
            revert h1
            cases p.has k <;> simp
          rw [h1f]
          rfl
      rw [if_neg (by rw [hcb]; exact Bool.false_ne_true)]
      rw [ih j]
      by_cases hj : j = k
      · subst hj
        cases hcj : p.m_pool[j]? with
        | none => rfl
        | some d =>
          simp only [Option.map_some']
          rw [if_neg (fun hx => hcond ⟨hx.2.1, hx.2.2⟩),
              if_neg (fun hx => hcond ⟨hx.2.1, hx.2.2⟩)]
      · cases hcj : p.m_pool[j]? with
        | none => rfl
        | some d =>
          simp only [Option.map_some']
          rw [updPoolCond_shift upd p opn k j hj d]

theorem poolData_ext {σ : Type} {p q : PoolData σ}
    (h1 : p.m_pool = q.m_pool) (h2 : p.m_active = q.m_active) : p = q := by
  cases p
  cases q
  cases h1
  cases h2
  rfl

theorem world_ext {σ : Type} {w v : World σ}
    (h1 : w.m_registry = v.m_registry) (h2 : w.m_entities = v.m_entities)
    (h3 : w.m_open = v.m_open) (h4 : w.m_capacity = v.m_capacity)
    (h5 : w.m_count = v.m_count) : w = v := by
  cases w
  cases v
  cases h1
  cases h2
  cases h3
  cases h4
  cases h5
  rfl

theorem updLoop_length (upd : σ → σ) (opn : List Nat) (p : PoolData σ) (m : Nat) :
    (World.updLoop upd opn p m).m_pool.length = p.m_pool.length := by
  induction m with
  | zero => rfl
  | succ k ih =>
    show (let q := World.updLoop upd opn p k; _ : PoolData σ).m_pool.length = _
    simp only [World.updLoop]
    split
    · split
      · simpa using ih
      · exact ih
    · exact ih

theorem updLoop_eq_spec (upd : σ → σ) (opn : List Nat) (cap : Nat) (p : PoolData σ) :
    World.updLoop upd opn p cap = specUpdatedPool upd opn cap 1 p := by
  apply poolData_ext
  · apply List.ext_getElem?
    intro j
    rw [updLoop_getElem?]
    show _ = (mapIdxFrom _ 0 p.m_pool)[j]?
    rw [mapIdxFrom_getElem?]
    rw [Nat.zero_add]
    cases hc : p.m_pool[j]? with
    | none => rfl
    | some c =>
      simp only [Option.map_some']
      by_cases hcond : j < cap ∧ p.has j = true ∧ j ∉ opn
      · rw [if_pos hcond, if_pos hcond]
        rw [Function.iterate_one]
      · rw [if_neg hcond, if_neg hcond]
  · rw [updLoop_active]
    rfl

theorem specUpdatedPool_zero (upd : σ → σ) (opn : List Nat) (cap : Nat) (p : PoolData σ) :
    specUpdatedPool upd opn cap 0 p = p := by
  apply poolData_ext
  · apply List.ext_getElem?
    intro j
    show (mapIdxFrom _ 0 p.m_pool)[j]? = _
    rw [mapIdxFrom_getElem?, Nat.zero_add]
    cases hc : p.m_pool[j]? with
    | none => rfl
    | some c =>
      simp only [Option.map_some']
      by_cases hcond : j < cap ∧ p.has j = true ∧ j ∉ opn
      · rw [if_pos hcond]
        rfl
      · rw [if_neg hcond]
  · rfl

theorem specUpdatedPool_has (upd : σ → σ) (opn : List Nat) (cap n : Nat)
    (p : PoolData σ) (j : Nat) :
    (specUpdatedPool upd opn cap n p).has j = p.has j := rfl

theorem specUpdatedPool_succ (upd : σ → σ) (opn : List Nat) (cap n : Nat)
    (p : PoolData σ) :
    specUpdatedPool upd opn cap 1 (specUpdatedPool upd opn cap n p) =
      specUpdatedPool upd opn cap (n + 1) p := by
  apply poolData_ext
  · apply List.ext_getElem?
    intro j
    show (mapIdxFrom _ 0 (mapIdxFrom _ 0 p.m_pool))[j]? = (mapIdxFrom _ 0 p.m_pool)[j]?
    rw [mapIdxFrom_getElem?, mapIdxFrom_getElem?, mapIdxFrom_getElem?, Nat.zero_add]
    rw [Option.map_map]
    cases hc : p.m_pool[j]? with
    | none => rfl
    | some c =>
      simp only [Option.map_some', Function.comp_apply]
      by_cases hcond : j < cap ∧ p.has j = true ∧ j ∉ opn
      · rw [if_pos hcond]
        have hcond2 : j < cap ∧ (specUpdatedPool upd opn cap n p).has j = true ∧ j ∉ opn :=
          ⟨hcond.1, by rw [specUpdatedPool_has]; exact hcond.2.1, hcond.2.2⟩
        rw [if_pos hcond2, if_pos hcond]
        show some (⟨upd (upd^[n] c.val), c.m_entity⟩ : Inst σ) = _
        rw [← Function.iterate_succ_apply' upd n c.val]
      · rw [if_neg hcond]
        have hcond2 : ¬ (j < cap ∧ (specUpdatedPool upd opn cap n p).has j = true ∧ j ∉ opn) := by
          intro hx
          exact hcond ⟨hx.1, by rw [← specUpdatedPool_has upd opn cap n p j]; exact hx.2.1, hx.2.2⟩
        rw [if_neg hcond2, if_neg hcond]
  · rfl

/-- C2: `World::update()` touches exactly the eligible (pool, index) pairs.
After `n` calls to `update()`, every registered pool holds, at each index
`j` below the capacity that is active in that pool and not on the free
list, its original payload updated exactly `n` times; every other stored
payload, every active flag, and all remaining world state (free list,
capacity, back references, count) are unchanged.  With a counter component
(`upd = Nat.succ`) this is precisely: `n` update calls increment every
active instance by `n` and leave inactive or removed instances alone. -/
theorem c2_update_exactly_once {σ : Type} (env : Nat → CompBehavior σ)
    (w : World σ) (n : Nat) :
    (fun v : World σ => v.update env)^[n] w =
      { w with m_registry := w.m_registry.map
                 (fun kp => (kp.1, specUpdatedPool (env kp.1).upd w.m_open w.m_capacity n kp.2)) } := by
  induction n with
  | zero =>
    simp only [Function.iterate_zero, id]
    have h1 : w.m_registry.map
        (fun kp => (kp.1, specUpdatedPool (env kp.1).upd w.m_open w.m_capacity 0 kp.2)) =
        w.m_registry.map id :=
      List.map_congr_left (fun kp _ => by rw [specUpdatedPool_zero]; rfl)
    rw [h1, List.map_id]
  | succ k ih =>
    rw [Function.iterate_succ_apply', ih]
    show World.update _ env = _
    unfold World.update
    apply world_ext
    · show (w.m_registry.map _).map _ = _
      rw [List.map_map]
      refine List.map_congr_left (fun kp _ => ?_)
      simp only [Function.comp_apply]
      rw [updLoop_eq_spec, specUpdatedPool_succ]
    · rfl
    · rfl
    · rfl
    · rfl

/-! ### Registry lookup lemmas and the cross-world clone (C3) -/

theorem registryFind_eq_none_iff {σ : Type} {r : Registry σ} {j : Nat} :
    registryFind r j = none ↔ j ∉ registryKeys r := by
  induction r with
  | nil => simp [registryFind, registryKeys]
  | cons kp rest ih =>
    unfold registryFind
    by_cases hk : kp.1 = j
    · rw [if_pos hk]
      simp [registryKeys, hk]
    · rw [if_neg hk]
      rw [ih]
      unfold registryKeys at *
      simp only [List.map_cons, List.mem_cons]
      constructor
      · intro h1 h2
        rcases h2 with h2 | h2
        · exact hk h2.symm
        · exact h1 h2
      · intro h1 h2
        exact h1 (Or.inr h2)

theorem poolCloneIn_eq {σ : Type} {p : PoolData σ} {id : Nat}
    (hid : id < p.m_pool.length) (v : σ) (h : Nat) :
    World.poolCloneIn p id v h =
      some ⟨p.m_pool.set id ⟨v, some h⟩, p.m_active.set id true⟩ := by
  unfold World.poolCloneIn
  rw [PoolData.add_eq_some hid]
  rfl

theorem registryModifyM_some {σ : Type} {r : Registry σ} {k : Nat}
    {f : PoolData σ → Option (PoolData σ)}
    (hall : ∀ kp ∈ r, kp.1 = k → (f kp.2).isSome) :
    ∃ r2, registryModifyM r k f = some r2 ∧
      (∀ j, j ≠ k → registryFind r2 j = registryFind r j) ∧
      (registryFind r2 k = (registryFind r k).bind f) ∧
      registryKeys r2 = registryKeys r ∧
      (∀ kp2 ∈ r2, ∃ kp ∈ r, kp2.1 = kp.1 ∧ (kp2.2 = kp.2 ∨ f kp.2 = some kp2.2)) := by
  induction r with
  | nil => exact ⟨[], rfl, fun j _ => rfl, rfl, rfl, by simp⟩
  | cons kp rest ih =>
    obtain ⟨rest2, hr2, hfind, hfindk, hkeys, hmem⟩ :=
      ih (fun q hq hqk => hall q (by simp [hq]) hqk)
    by_cases hk : kp.1 = k
    · have hf : (f kp.2).isSome := hall kp (by simp) hk
      obtain ⟨p2, hp2⟩ := Option.isSome_iff_exists.mp hf
      refine ⟨(kp.1, p2) :: rest2, ?_, ?_, ?_, ?_, ?_⟩
      · unfold registryModifyM
        rw [if_pos hk, hp2, hr2]
      · intro j hj
        unfold registryFind
        rw [if_neg (by rw [hk]; exact fun hx => hj hx.symm),
            if_neg (by rw [hk]; exact fun hx => hj hx.symm)]
        exact hfind j hj
      · unfold registryFind
        rw [if_pos hk, if_pos hk]
        show some p2 = f kp.2
        exact hp2.symm
      · show List.map Prod.fst ((kp.1, p2) :: rest2) = List.map Prod.fst (kp :: rest)
        unfold registryKeys at hkeys
        simp only [List.map_cons]
        rw [hkeys]
      · intro kp2 hkp2
        rcases List.mem_cons.mp hkp2 with rfl | hmem2
        · exact ⟨kp, by simp, rfl, Or.inr hp2⟩
        · obtain ⟨q, hq, hq1, hq2⟩ := hmem kp2 hmem2
          exact ⟨q, by simp [hq], hq1, hq2⟩
    · refine ⟨kp :: rest2, ?_, ?_, ?_, ?_, ?_⟩
      · unfold registryModifyM
        rw [if_neg hk, hr2]
      · intro j hj
        unfold registryFind
        by_cases hkj : kp.1 = j
        · rw [if_pos hkj, if_pos hkj]
        · rw [if_neg hkj, if_neg hkj]
          exact hfind j hj
      · unfold registryFind
        rw [if_neg hk, if_neg hk]
        exact hfindk
      · show List.map Prod.fst (kp :: rest2) = List.map Prod.fst (kp :: rest)
        unfold registryKeys at hkeys
        simp only [List.map_cons]
        rw [hkeys]
      · intro kp2 hkp2
        rcases List.mem_cons.mp hkp2 with rfl | hmem2
        · exact ⟨kp2, by simp, rfl, Or.inl rfl⟩
        · obtain ⟨q, hq, hq1, hq2⟩ := hmem kp2 hmem2
          exact ⟨q, by simp [hq], hq1, hq2⟩

theorem registryFind_eq_some_mem {σ : Type} {r : Registry σ} {j : Nat} {p : PoolData σ}
    (h : registryFind r j = some p) :
    ∃ kp ∈ r, kp.1 = j ∧ kp.2 = p := by
  induction r with
  | nil => cases h
  | cons kp rest ih =>
    unfold registryFind at h
    by_cases hk : kp.1 = j
    · rw [if_pos hk] at h
      exact ⟨kp, by simp, hk, by injection h⟩
    · rw [if_neg hk] at h
      obtain ⟨q, hq, hq1, hq2⟩ := ih h
      exact ⟨q, by simp [hq], hq1, hq2⟩

theorem cloneFromCross_spec {σ : Type} (src : Registry σ) :
    ∀ (dst : Registry σ) (srcId id h : Nat),
    (∀ kp ∈ src, kp.2.m_active.length = kp.2.m_pool.length) →
    (registryKeys src).Nodup →
    (∀ kp ∈ dst, id < kp.2.m_pool.length) →
    ∃ dst2, World.cloneFromCross dst src srcId id h = some dst2 ∧
      registryKeys dst2 = registryKeys dst ∧
      (∀ kp2 ∈ dst2, id < kp2.2.m_pool.length) ∧
      (∀ j, registryFind src j = none → registryFind dst2 j = registryFind dst j) ∧
      (∀ j sp, registryFind src j = some sp → sp.has srcId = false →
        registryFind dst2 j = registryFind dst j) ∧
      (∀ j sp sv, registryFind src j = some sp → sp.has srcId = true →
        sp.m_pool[srcId]? = some sv →
        registryFind dst2 j = (registryFind dst j).map
          (fun dp => clonedPool dp id sv.val h)) := by
  induction src with
  | nil =>
    intro dst srcId id h _ _ hdst
    refine ⟨dst, rfl, rfl, hdst, fun j _ => rfl, ?_, ?_⟩
    · intro j sp hsp
      cases hsp
    · intro j sp sv hsp
      cases hsp
  | cons kp0 rest ih =>
    intro dst srcId id h hsrclen hnd hdst
    have hsrclen0 := hsrclen kp0 (by simp)
    have hsrclenr : ∀ kp ∈ rest, kp.2.m_active.length = kp.2.m_pool.length :=
      fun q hq => hsrclen q (by simp [hq])
    have hndr : (registryKeys rest).Nodup := by
      unfold registryKeys at hnd ⊢
      simp only [List.map_cons] at hnd
      exact hnd.of_cons
    have hk0rest : registryFind rest kp0.1 = none := by
      rw [registryFind_eq_none_iff]
      unfold registryKeys at hnd ⊢
      simp only [List.map_cons, List.nodup_cons] at hnd
      exact hnd.1
    by_cases hcond : kp0.2.has srcId = true ∧ (registryFind dst kp0.1).isSome = true
    · have hsrcIdlt : srcId < kp0.2.m_pool.length := by
        have h1 : srcId < kp0.2.m_active.length := by
          by_contra h2
          have h3 : kp0.2.m_active.getD srcId false = false :=
            List.getD_eq_default _ _ (by omega)
          unfold PoolData.has at hcond
          rw [h3] at hcond
          exact Bool.false_ne_true hcond.1
        omega
      obtain ⟨sv0, hsv⟩ : ∃ sv0, kp0.2.m_pool[srcId]? = some sv0 :=
        ⟨_, List.getElem?_eq_getElem hsrcIdlt⟩
      have hatIdx : kp0.2.atIdx srcId = some sv0 := hsv
      obtain ⟨dst1, hdst1, hfindne, hfindk, hkeys1, hmem1⟩ :=
        registryModifyM_some (r := dst) (k := kp0.1)
          (f := fun p => World.poolCloneIn p id sv0.val h)
          (fun q hq _ => by
            show (World.poolCloneIn q.2 id sv0.val h).isSome = true
            rw [poolCloneIn_eq (hdst q hq)]
            rfl)
      have hstep : World.cloneFromCross dst (kp0 :: rest) srcId id h =
          World.cloneFromCross dst1 rest srcId id h := by
        conv_lhs => unfold World.cloneFromCross
        rw [if_pos hcond, hatIdx]
        show (match registryModifyM dst kp0.1 (fun p => World.poolCloneIn p id sv0.val h) with
              | some d1 => World.cloneFromCross d1 rest srcId id h
              | none => none) = World.cloneFromCross dst1 rest srcId id h
        rw [hdst1]
      have hdst1len : ∀ kp2 ∈ dst1, id < kp2.2.m_pool.length := by
        intro kp2 hkp2
        obtain ⟨q, hq, _, hq2⟩ := hmem1 kp2 hkp2
        rcases hq2 with hq2 | hq2
        · rw [hq2]
          exact hdst q hq
        · rw [poolCloneIn_eq (hdst q hq)] at hq2
          injection hq2 with hq3
          rw [← hq3]
          simpa using hdst q hq
      obtain ⟨dst2, hdst2c, hkeys2, hlen2, hA, hB, hC⟩ :=
        ih dst1 srcId id h hsrclenr hndr hdst1len
      refine ⟨dst2, by rw [hstep]; exact hdst2c, by rw [hkeys2, hkeys1], hlen2, ?_, ?_, ?_⟩
      · intro j hj
        unfold registryFind at hj
        by_cases hk : kp0.1 = j
        · rw [if_pos hk] at hj
          cases hj
        · rw [if_neg hk] at hj
          rw [hA j hj, hfindne j (fun hx => hk hx.symm)]
      · intro j sp hsp hfalse
        unfold registryFind at hsp
        by_cases hk : kp0.1 = j
        · rw [if_pos hk] at hsp
          injection hsp with hsp1
          rw [hsp1] at hcond
          rw [hcond.1] at hfalse
          cases hfalse
        · rw [if_neg hk] at hsp
          rw [hB j sp hsp hfalse, hfindne j (fun hx => hk hx.symm)]
      · intro j sp sv hsp htrue hsv2
        unfold registryFind at hsp
        by_cases hk : kp0.1 = j
        · rw [if_pos hk] at hsp
          injection hsp with hsp1
          subst hsp1
          rw [hsv] at hsv2
          injection hsv2 with hsv3
          rw [← hk]
          rw [hA kp0.1 hk0rest, hfindk]
          obtain ⟨dp, hdp⟩ := Option.isSome_iff_exists.mp hcond.2
          rw [hdp]
          obtain ⟨q, hq, _, hq2⟩ := registryFind_eq_some_mem hdp
          have hdplen : id < dp.m_pool.length := by
            rw [← hq2]
            exact hdst q hq
          show World.poolCloneIn dp id sv0.val h = some (clonedPool dp id sv.val h)
          rw [poolCloneIn_eq hdplen, hsv3]
          rfl
        · rw [if_neg hk] at hsp
          rw [hC j sp sv hsp htrue hsv2, hfindne j (fun hx => hk hx.symm)]
    · have hstep : World.cloneFromCross dst (kp0 :: rest) srcId id h =
          World.cloneFromCross dst rest srcId id h := by
        conv_lhs => unfold World.cloneFromCross
        rw [if_neg hcond]
      obtain ⟨dst2, hdst2c, hkeys2, hlen2, hA, hB, hC⟩ :=
        ih dst srcId id h hsrclenr hndr hdst
      refine ⟨dst2, by rw [hstep]; exact hdst2c, hkeys2, hlen2, ?_, ?_, ?_⟩
      · intro j hj
        unfold registryFind at hj
        by_cases hk : kp0.1 = j
        · rw [if_pos hk] at hj
          cases hj
        · rw [if_neg hk] at hj
          exact hA j hj
      · intro j sp hsp hfalse
        unfold registryFind at hsp
        by_cases hk : kp0.1 = j
        · rw [← hk]
          exact hA kp0.1 hk0rest
        · rw [if_neg hk] at hsp
          exact hB j sp hsp hfalse
      · intro j sp sv hsp htrue hsv2
        unfold registryFind at hsp
        by_cases hk : kp0.1 = j
        · rw [if_pos hk] at hsp
          injection hsp with hsp1
          subst hsp1
          have hnone : registryFind dst kp0.1 = none := by
            rcases hfind : registryFind dst kp0.1 with _ | dp
            · rfl
            · exfalso
              exact hcond ⟨htrue, by rw [hfind]; rfl⟩
          rw [← hk, hA kp0.1 hk0rest, hnone]
          rfl
        · rw [if_neg hk] at hsp
          exact hC j sp sv hsp htrue hsv2

theorem registryFind_map {σ : Type} (r : Registry σ) (g : Nat → PoolData σ → PoolData σ)
    (j : Nat) :
    registryFind (r.map (fun kp => (kp.1, g kp.1 kp.2))) j =
      (registryFind r j).map (g j) := by
  induction r with
  | nil => rfl
  | cons kp rest ih =>
    unfold registryFind
    simp only [List.map_cons]
    by_cases hk : kp.1 = j
    · rw [if_pos hk, if_pos hk, hk]
      rfl
    · rw [if_neg hk, if_neg hk]
      exact ih

theorem addEntity_post {σ : Type} (env : Nat → CompBehavior σ) (w : World σ) (h : Nat)
    (hdlen : ∀ kp ∈ w.m_registry, kp.2.m_active.length = kp.2.m_pool.length ∧
             w.m_capacity ≤ kp.2.m_pool.length)
    (hopen : ∀ i ∈ w.m_open, i < w.m_capacity)
    (halloc : ∀ i rest, w.m_open = i :: rest → i < w.m_entities.length) :
    ∃ wi, w.addEntity env h = some wi ∧
      (∀ kp ∈ wi.1.m_registry,
        wi.2 < kp.2.m_pool.length ∧ wi.2 < kp.2.m_active.length) ∧
      (∀ j, registryFind w.m_registry j = none →
        registryFind wi.1.m_registry j = none) := by
  cases hmo : w.m_open with
  | cons i rest =>
    refine ⟨_, addEntity_reuse env h i rest hmo (halloc i rest hmo), ?_, ?_⟩
    · show ∀ kp ∈ w.m_registry, i < kp.2.m_pool.length ∧ i < kp.2.m_active.length
      intro kp hkp
      have h1 := hdlen kp hkp
      have h2 : i < w.m_capacity := hopen i (by rw [hmo]; simp)
      exact ⟨by omega, by omega⟩
    · intro j hj
      exact hj
  | nil =>
    refine ⟨_, addEntity_grow env h hmo, ?_, ?_⟩
    · show ∀ kp ∈ w.m_registry.map
          (fun kp => (kp.1, kp.2.resize (w.m_capacity + 1) (env kp.1).dflt)),
        w.m_capacity < kp.2.m_pool.length ∧ w.m_capacity < kp.2.m_active.length
      intro kp hkp
      simp only [List.mem_map] at hkp
      obtain ⟨q, _, rfl⟩ := hkp
      unfold PoolData.resize
      simp only [listResize_length]
      omega
    · intro j hj
      show registryFind (w.m_registry.map
        (fun kp => (kp.1, kp.2.resize (w.m_capacity + 1) (env kp.1).dflt))) j = none
      rw [registryFind_map w.m_registry
        (fun k p => p.resize (w.m_capacity + 1) (env k).dflt) j, hj]
      rfl

theorem has_clonedPool {σ : Type} {dp : PoolData σ} {id : Nat}
    (hlt : id < dp.m_active.length) (v : σ) (h2 : Nat) :
    (clonedPool dp id v h2).has id = true := by
  show ((dp.m_active.set id true).getD id false) = true
  rw [List.getD_eq_getElem?_getD, List.getElem?_set_eq_of_lt _ hlt]
  rfl

theorem val_clonedPool {σ : Type} {dp : PoolData σ} {id : Nat}
    (hlt : id < dp.m_pool.length) (v : σ) (h2 : Nat) :
    (clonedPool dp id v h2).m_pool[id]? = some ⟨v, some h2⟩ := by
  unfold clonedPool
  exact List.getElem?_set_eq_of_lt _ hlt

/-- C3, counterexample to the unconditional cross-world clone: the
destination world below is reached by registering a type, creating three
entities, releasing slots 0 and 1 and re-creating once; its free-list head
1 is not below `m_entities.size() = 1`, so the `Entity(other, world)`
constructor throws `std::out_of_range` inside `addEntity` (World.hpp:177)
before any cloning happens — the whole cross-world copy is `none`, not a
successful clone. -/
theorem c3_counterexample :
    ((emptyWorld Nat).addT (fun _ => ⟨0, Nat.succ⟩) 0 =
       ⟨[(0, ⟨[], []⟩)], [], [], 0, 0⟩) ∧
    ((⟨[(0, ⟨[], []⟩)], [], [], 0, 0⟩ : World Nat).addEntity
        (fun _ => ⟨0, Nat.succ⟩) 0 =
       some (⟨[(0, ⟨[⟨0, none⟩], [false]⟩)], [0], [], 1, 1⟩, 0)) ∧
    ((⟨[(0, ⟨[⟨0, none⟩], [false]⟩)], [0], [], 1, 1⟩ : World Nat).addEntity
        (fun _ => ⟨0, Nat.succ⟩) 1 =
       some (⟨[(0, ⟨[⟨0, none⟩, ⟨0, none⟩], [false, false]⟩)],
              [0, 1], [], 2, 2⟩, 1)) ∧
    ((⟨[(0, ⟨[⟨0, none⟩, ⟨0, none⟩], [false, false]⟩)], [0, 1], [], 2, 2⟩ :
        World Nat).addEntity (fun _ => ⟨0, Nat.succ⟩) 2 =
       some (⟨[(0, ⟨[⟨0, none⟩, ⟨0, none⟩, ⟨0, none⟩], [false, false, false]⟩)],
              [0, 1, 2], [], 3, 3⟩, 2)) ∧
    ((⟨[(0, ⟨[⟨0, none⟩, ⟨0, none⟩, ⟨0, none⟩], [false, false, false]⟩)],
        [0, 1, 2], [], 3, 3⟩ : World Nat).removeEntityW ⟨some 0, 0⟩ =
       some ⟨[(0, ⟨[⟨0, none⟩, ⟨0, none⟩, ⟨0, none⟩], [false, false, false]⟩)],
             [1, 2], [0], 3, 2⟩) ∧
    ((⟨[(0, ⟨[⟨0, none⟩, ⟨0, none⟩, ⟨0, none⟩], [false, false, false]⟩)],
        [1, 2], [0], 3, 2⟩ : World Nat).removeEntityW ⟨some 0, 1⟩ =
       some ⟨[(0, ⟨[⟨0, none⟩, ⟨0, none⟩, ⟨0, none⟩], [false, false, false]⟩)],
             [1], [0, 1], 3, 1⟩) ∧
    ((⟨[(0, ⟨[⟨0, none⟩, ⟨0, none⟩, ⟨0, none⟩], [false, false, false]⟩)],
        [1], [0, 1], 3, 1⟩ : World Nat).addEntity (fun _ => ⟨0, Nat.succ⟩) 3 =
       some (⟨[(0, ⟨[⟨0, none⟩, ⟨0, none⟩, ⟨0, none⟩], [false, false, false]⟩)],
              [3], [1], 3, 2⟩, 0)) ∧
    ((⟨[(0, ⟨[⟨0, none⟩, ⟨0, none⟩, ⟨0, none⟩], [false, false, false]⟩)],
        [3], [1], 3, 2⟩ : World Nat).addEntityCross (fun _ => ⟨0, Nat.succ⟩) 4
        ⟨[(0, ⟨[⟨7, some 0⟩], [true]⟩)], [0], [], 1, 1⟩ 0 = none) :=
  ⟨rfl, rfl, rfl, rfl, rfl, rfl, rfl, rfl⟩

/-- C3 amended: provided the slot allocation inside the `Entity(other,
world)` constructor does not throw (the destination free-list head, if any,
is within its back-reference vector), a cross-world entity copy into world
`w` clones exactly the component types that are registered in both worlds
and active at the source slot (the destination pool at the new slot is
activated and receives the source payload, with the back pointer aimed at
the new handle); component types registered only in the source world are
silently skipped, so they are absent in the destination and `hasComponent`
is false for them; pools of the destination whose type is absent in the
source, or inactive at the source slot, keep exactly their post-allocation
state. -/
theorem c3_cross_world_clone {σ : Type} (env : Nat → CompBehavior σ)
    (w src : World σ) (h srcId wid : Nat)
    (hdlen : ∀ kp ∈ w.m_registry, kp.2.m_active.length = kp.2.m_pool.length ∧
             w.m_capacity ≤ kp.2.m_pool.length)
    (hopen : ∀ i ∈ w.m_open, i < w.m_capacity)
    (halloc : ∀ i rest, w.m_open = i :: rest → i < w.m_entities.length)
    (hslen : ∀ kp ∈ src.m_registry, kp.2.m_active.length = kp.2.m_pool.length)
    (hsnd : (registryKeys src.m_registry).Nodup) :
    ∃ wi, w.addEntity env h = some wi ∧
    ∃ w2, w.addEntityCross env h src srcId = some (w2, wi.2) ∧
      (∀ j, registryFind w.m_registry j = none →
        registryFind w2.m_registry j = none ∧
        w2.hasComponent ⟨some wid, wi.2⟩ j = false) ∧
      (∀ j sp sv, registryFind src.m_registry j = some sp → sp.has srcId = true →
        sp.m_pool[srcId]? = some sv →
        ∀ dp, registryFind wi.1.m_registry j = some dp →
        registryFind w2.m_registry j =
          some (clonedPool dp wi.2 sv.val h) ∧
        w2.hasComponent ⟨some wid, wi.2⟩ j = true ∧
        (registryFind w2.m_registry j).bind
          (fun q => q.m_pool[wi.2]?) = some ⟨sv.val, some h⟩) ∧
      (∀ j, (registryFind src.m_registry j = none ∨
             (∃ sp, registryFind src.m_registry j = some sp ∧ sp.has srcId = false)) →
        registryFind w2.m_registry j = registryFind wi.1.m_registry j) := by
  obtain ⟨wi, hwi, hpost, hpnone⟩ := addEntity_post env w h hdlen hopen halloc
  obtain ⟨dst2, hclone, hkeys2, hlen2, hA, hB, hC⟩ :=
    cloneFromCross_spec src.m_registry wi.1.m_registry srcId
      wi.2 h hslen hsnd (fun kp hkp => (hpost kp hkp).1)
  refine ⟨wi, hwi, { wi.1 with m_registry := dst2 }, ?_, ?_, ?_, ?_⟩
  · unfold World.addEntityCross
    rw [hwi]
    show (World.cloneFromCross wi.1.m_registry src.m_registry srcId wi.2 h).map
      (fun reg => ({ wi.1 with m_registry := reg }, wi.2)) = _
    rw [hclone]
    rfl
  · intro j hjnone
    have hpostnone : registryFind wi.1.m_registry j = none := hpnone j hjnone
    have hd2none : registryFind dst2 j = none := by
      rcases hsj : registryFind src.m_registry j with _ | sp
      · rw [hA j hsj]
        exact hpostnone
      · by_cases hact : sp.has srcId = true
        · have hsplen : srcId < sp.m_pool.length := by
            obtain ⟨q, hq, _, hq2⟩ := registryFind_eq_some_mem hsj
            have h1 := hslen q hq
            have h2 : srcId < sp.m_active.length := by
              by_contra h3
              have h4 : sp.m_active.getD srcId false = false :=
                List.getD_eq_default _ _ (by omega)
              unfold PoolData.has at hact
              rw [h4] at hact
              cases hact
            rw [hq2] at h1
            omega
          obtain ⟨sv, hsv⟩ : ∃ sv, sp.m_pool[srcId]? = some sv :=
            ⟨_, List.getElem?_eq_getElem hsplen⟩
          rw [hC j sp sv hsj hact hsv, hpostnone]
          rfl
        · have hact2 : sp.has srcId = false := by
            revert hact
            cases sp.has srcId <;> simp
          rw [hB j sp hsj hact2]
          exact hpostnone
    refine ⟨hd2none, ?_⟩
    unfold World.hasComponent
    rw [show registryFind ({ wi.1 with m_registry := dst2 } :
          World σ).m_registry j = registryFind dst2 j from rfl, hd2none]
  · intro j sp sv hsj hact hsv dp hdp
    have hfind2 : registryFind dst2 j =
        some (clonedPool dp wi.2 sv.val h) := by
      rw [hC j sp sv hsj hact hsv, hdp]
      rfl
    obtain ⟨q, hq, _, hq2⟩ := registryFind_eq_some_mem hdp
    have hlens := hpost q hq
    rw [hq2] at hlens
    refine ⟨hfind2, ?_, ?_⟩
    · unfold World.hasComponent
      rw [show registryFind ({ wi.1 with m_registry := dst2 } :
            World σ).m_registry j = registryFind dst2 j from rfl, hfind2]
      exact has_clonedPool hlens.2 sv.val h
    · rw [show registryFind ({ wi.1 with m_registry := dst2 } :
            World σ).m_registry j = registryFind dst2 j from rfl, hfind2]
      show (clonedPool dp wi.2 sv.val h).m_pool[wi.2]? = _
      rw [val_clonedPool hlens.1 sv.val h]
  · intro j hj
    rcases hj with hj | ⟨sp, hsp, hact⟩
    · exact hA j hj
    · exact hB j sp hsp hact

/-- Witness for C3: world `W1` holds types `{0, 1}` (both active on entity
slot 0 with payloads 7 and 9), world `W2` holds only type `0`; the clone
receives type 0 with payload 7 and `hasComponent` for type 1 is false. -/
theorem c3_cross_world_clone_witness :
    ∃ wi, (⟨[(0, ⟨[], []⟩)], [], [], 0, 0⟩ : World Nat).addEntity
        (fun _ => ⟨0, Nat.succ⟩) 5 = some wi ∧
    ∃ w2, (⟨[(0, ⟨[], []⟩)], [], [], 0, 0⟩ : World Nat).addEntityCross
        (fun _ => ⟨0, Nat.succ⟩) 5
        ⟨[(0, ⟨[⟨7, some 0⟩], [true]⟩), (1, ⟨[⟨9, some 0⟩], [true]⟩)], [0], [], 1, 1⟩ 0 =
        some (w2, wi.2) ∧
      w2.hasComponent ⟨some 2, wi.2⟩ 1 = false ∧
      w2.hasComponent ⟨some 2, wi.2⟩ 0 = true ∧
      (registryFind w2.m_registry 0).bind (fun q => q.m_pool[wi.2]?) =
        some ⟨7, some 5⟩ := by
  obtain ⟨wi, hwi, w2, hop, hskip, hclone, _⟩ :=
    c3_cross_world_clone (σ := Nat) (fun _ => ⟨0, Nat.succ⟩)
      ⟨[(0, ⟨[], []⟩)], [], [], 0, 0⟩
      ⟨[(0, ⟨[⟨7, some 0⟩], [true]⟩), (1, ⟨[⟨9, some 0⟩], [true]⟩)], [0], [], 1, 1⟩
      5 0 2 (by decide) (by decide)
      (by intro i rest hx; exact absurd hx (by simp)) (by decide) (by decide)
  have hwieq : wi = (⟨[(0, ⟨[⟨0, none⟩], [false]⟩)], [5], [], 1, 1⟩, 0) := by
    have h2 : some wi =
        some ((⟨[(0, ⟨[⟨0, none⟩], [false]⟩)], [5], [], 1, 1⟩ : World Nat), 0) := by
      rw [← hwi]
      rfl
    exact Option.some.inj h2
  have hdp : registryFind wi.1.m_registry 0 = some ⟨[⟨0, none⟩], [false]⟩ := by
    rw [hwieq]
    rfl
  refine ⟨wi, hwi, w2, hop, (hskip 1 (by decide)).2, ?_, ?_⟩
  · exact (hclone 0 ⟨[⟨7, some 0⟩], [true]⟩ ⟨7, some 0⟩ (by decide) (by decide) (by decide)
      ⟨[⟨0, none⟩], [false]⟩ hdp).2.1
  · exact (hclone 0 ⟨[⟨7, some 0⟩], [true]⟩ ⟨7, some 0⟩ (by decide) (by decide) (by decide)
      ⟨[⟨0, none⟩], [false]⟩ hdp).2.2

/-- C5 fails on the code: after three creations, removal of the non-top
entity (handle 1 keeps slot 1), reuse of slot 0 by a fourth entity, and
`clear()`, the still-live handle 1 is STILL BOUND (`valid()` true), because
`removeEntity`'s positional erase of `m_entities` shifted the later
back references while `addEntity`'s reuse path overwrites positionally —
so handle 1's back reference was lost and `clear()` never unbinds it.  The
remaining tracked handles are unbound and the registry is emptied, as the
claim demands. -/
theorem c5_clear_misses_live_handle :
    (removeEntityH c5s3.1 c5s3.2 0).isSome = true ∧
    c5s5.1.m_entities = [3, 2] ∧
    c5s6.2 1 = ⟨some 0, 1⟩ ∧
    (c5s6.2 1).valid = true ∧
    (c5s6.2 0).valid = false ∧
    (c5s6.2 2).valid = false ∧
    (c5s6.2 3).valid = false ∧
    c5s6.1.m_registry = [] := by
  refine ⟨rfl, rfl, rfl, rfl, rfl, rfl, rfl, rfl⟩

/-! ### C6: redundant remove -/

/-- C6 counterexample: on a bound, existing entity in a world with NO
registered types, type 0 is certainly "not currently active on that
entity", yet `remove<T>` raises the "Component type not added to World"
error instead of being a silent no-op. -/
theorem c6_counterexample :
    ((⟨[], [0], [], 1, 1⟩ : World Nat).hasComponent ⟨some 0, 0⟩ 0 = false) ∧
    (⟨[], [0], [], 1, 1⟩ : World Nat).hasEntity ⟨some 0, 0⟩ = true ∧
    Entity.removeC ⟨some 0, 0⟩ (⟨[], [0], [], 1, 1⟩ : World Nat) 0 =
      .error .notAdded := by
  exact ⟨rfl, rfl, rfl⟩

theorem registryModify_of_not_mem {σ : Type} {r : Registry σ} {k : Nat}
    (h : registryFind r k = none) (f : PoolData σ → PoolData σ) :
    registryModify r k f = r := by
  induction r with
  | nil => rfl
  | cons kp rest ih =>
    unfold registryFind at h
    unfold registryModify at ih ⊢
    by_cases hk : kp.1 = k
    · rw [if_pos hk] at h
      cases h
    · rw [if_neg hk] at h
      simp only [List.map_cons, if_neg hk]
      rw [ih h]

theorem set_eq_self_of_getElem? {l : List α} {i : Nat} {a : α}
    (h : l[i]? = some a) : l.set i a = l := by
  induction l generalizing i with
  | nil => cases h
  | cons b rest ih =>
    cases i with
    | zero =>
      rw [List.getElem?_cons_zero] at h
      injection h with hb
      rw [List.set_cons_zero, hb]
    | succ m =>
      rw [List.getElem?_cons_succ] at h
      rw [List.set_cons_succ, ih h]

theorem registryModify_const_self {σ : Type} {r : Registry σ} {k : Nat} {p : PoolData σ}
    (hnd : (registryKeys r).Nodup) (hp : registryFind r k = some p) :
    registryModify r k (fun _ => p) = r := by
  induction r with
  | nil => rfl
  | cons kp rest ih =>
    unfold registryFind at hp
    unfold registryKeys at hnd
    simp only [List.map_cons, List.nodup_cons] at hnd
    unfold registryModify
    simp only [List.map_cons]
    by_cases hk : kp.1 = k
    · rw [if_pos hk] at hp ⊢
      have hkp2 : kp.2 = p := by injection hp
      have hrest : registryFind rest k = none := by
        rw [registryFind_eq_none_iff]
        rw [← hk]
        exact hnd.1
      have h2 : registryModify rest k (fun _ => p) = rest :=
        registryModify_of_not_mem hrest _
      unfold registryModify at h2
      rw [h2, ← hkp2]
    · rw [if_neg hk] at hp ⊢
      have h2 := ih hnd.2 hp
      unfold registryModify at h2
      rw [h2]

theorem removeComponent_found {σ : Type} {w : World σ} {k : Nat} {p : PoolData σ}
    (hp : registryFind w.m_registry k = some p) (e : Entity) :
    w.removeComponent e k =
      (match p.remove e.m_id with
       | none => .error .oob
       | some p2 => .ok { w with m_registry := registryModify w.m_registry k (fun _ => p2) }) := by
  unfold World.removeComponent
  rw [hp]

theorem addComponent_found {σ : Type} {w : World σ} {e : Entity} {k : Nat} {p : PoolData σ}
    (hent : w.hasEntity e = true) (hp : registryFind w.m_registry k = some p)
    (v : σ) (h : Nat) :
    w.addComponent e k v h =
      (if p.has e.m_id = false then
        match World.poolCloneIn p e.m_id v h with
        | none => .error .oob
        | some p2 =>
          match p2.atIdx e.m_id with
          | none => .error .oob
          | some inst =>
            .ok ({ w with m_registry := registryModify w.m_registry k (fun _ => p2) }, inst)
      else
        match p.atIdx e.m_id with
        | none => .error .oob
        | some inst => .ok (w, inst)) := by
  unfold World.addComponent
  rw [if_neg (by rw [hent]; exact fun hx => Bool.noConfusion hx),
      if_neg (by unfold World.hasT; rw [hp]; exact fun hx => Bool.noConfusion hx), hp]

/-- C6 amended: for a bound entity whose world has the type REGISTERED
(with unique registry keys, as `std::map` guarantees), whose slot index is
within the pool's flag vector, and on which the type is not active,
`remove<T>` raises no error and returns the world completely unchanged —
a silent no-op.  (The unamended claim fails only for an unregistered type,
where the code throws "Component type not added to World"; see the
counterexample.) -/
theorem c6_redundant_remove_noop {σ : Type} (w : World σ) (e : Entity) (k : Nat)
    (hval : e.valid = true)
    (hnd : (registryKeys w.m_registry).Nodup)
    (p : PoolData σ) (hp : registryFind w.m_registry k = some p)
    (hidlt : e.m_id < p.m_active.length)
    (hinact : p.has e.m_id = false) :
    Entity.removeC e w k = .ok w := by
  have hset : p.m_active.set e.m_id false = p.m_active := by
    apply set_eq_self_of_getElem?
    unfold PoolData.has at hinact
    rw [List.getD_eq_getElem?_getD] at hinact
    cases hc : p.m_active[e.m_id]? with
    | none =>
      exfalso
      have h3 := List.getElem?_eq_none_iff.mp hc
      omega
    | some b =>
      rw [hc] at hinact
      cases b with
      | true => cases hinact
      | false => rfl
  have hpool : ({ p with m_active := p.m_active.set e.m_id false } : PoolData σ) = p := by
    rw [hset]
  unfold Entity.removeC
  rw [if_neg (by rw [hval]; exact fun hx => Bool.noConfusion hx)]
  rw [removeComponent_found hp e, PoolData.remove_eq_some hidlt]
  show Except.ok
      { w with
        m_registry :=
          registryModify w.m_registry k
            (fun _ => { p with m_active := p.m_active.set e.m_id false }) } =
    Except.ok w
  rw [hpool, registryModify_const_self hnd hp]

/-- Witness for C6's amended statement: a one-slot world where type 0 is
registered but inactive on the entity; the redundant remove returns the
world unchanged. -/
theorem c6_redundant_remove_noop_witness :
    Entity.removeC ⟨some 0, 0⟩
      (⟨[(0, ⟨[⟨5, none⟩], [false]⟩)], [0], [], 1, 1⟩ : World Nat) 0 =
      .ok ⟨[(0, ⟨[⟨5, none⟩], [false]⟩)], [0], [], 1, 1⟩ :=
  c6_redundant_remove_noop ⟨[(0, ⟨[⟨5, none⟩], [false]⟩)], [0], [], 1, 1⟩
    ⟨some 0, 0⟩ 0 (by decide) (by decide) ⟨[⟨5, none⟩], [false]⟩
    (by decide) (by decide) (by decide)

/-! ### C7: duplicate add is a no-op -/

/-- C7: when the slot already holds an active component of type `k`,
`add<T>(args...)` succeeds, performs NO write at all (the returned world is
the argument world, whatever arguments were passed), and returns the
existing stored instance. -/
theorem c7_duplicate_add_noop {σ : Type} (w : World σ) (e : Entity) (k : Nat)
    (v : σ) (h : Nat)
    (hent : w.hasEntity e = true)
    (p : PoolData σ) (hp : registryFind w.m_registry k = some p)
    (hlen : p.m_active.length = p.m_pool.length)
    (hact : p.has e.m_id = true) :
    ∃ inst, w.addComponent e k v h = .ok (w, inst) ∧
      p.m_pool[e.m_id]? = some inst := by
  have hidlt : e.m_id < p.m_active.length := by
    by_contra h2
    unfold PoolData.has at hact
    rw [List.getD_eq_default _ _ (by omega)] at hact
    cases hact
  have hpoollt : e.m_id < p.m_pool.length := by omega
  obtain ⟨inst, hinst⟩ : ∃ inst, p.m_pool[e.m_id]? = some inst :=
    ⟨_, List.getElem?_eq_getElem hpoollt⟩
  refine ⟨inst, ?_, hinst⟩
  have hat : p.atIdx e.m_id = some inst := hinst
  rw [addComponent_found hent hp v h,
      if_neg (by rw [hact]; exact fun hx => Bool.noConfusion hx), hat]

/-- Witness for C7: a second `add` with a different payload (99) on a slot
already holding payload 5 returns the original world and the stored 5. -/
theorem c7_duplicate_add_noop_witness :
    ∃ inst, (⟨[(0, ⟨[⟨5, some 0⟩], [true]⟩)], [0], [], 1, 1⟩ : World Nat).addComponent
        ⟨some 0, 0⟩ 0 99 0 =
      .ok (⟨[(0, ⟨[⟨5, some 0⟩], [true]⟩)], [0], [], 1, 1⟩, inst) ∧
      ([⟨5, some 0⟩] : List (Inst Nat))[(0 : Nat)]? = some inst :=
  c7_duplicate_add_noop ⟨[(0, ⟨[⟨5, some 0⟩], [true]⟩)], [0], [], 1, 1⟩
    ⟨some 0, 0⟩ 0 99 0 (by decide) ⟨[⟨5, some 0⟩], [true]⟩
    (by decide) (by decide) (by decide)

/-! ### C8: operations on an unbound handle -/

/-- C8: on a default-constructed (never bound) entity handle, `valid()` is
false and each of `add`, `has`, `get`, `remove` raises the invalid-state
("Uninitialized Entity") failure, for every world, type and argument. -/
theorem c8_unbound_handle_errors {σ : Type} (w : World σ) (k : Nat) (v : σ) (h : Nat) :
    (⟨none, 0⟩ : Entity).valid = false ∧
    Entity.add ⟨none, 0⟩ w k v h = .error .uninit ∧
    Entity.hasC ⟨none, 0⟩ w k = .error .uninit ∧
    Entity.get ⟨none, 0⟩ w k = .error .uninit ∧
    Entity.removeC ⟨none, 0⟩ w k = .error .uninit :=
  ⟨rfl, rfl, rfl, rfl, rfl⟩

/-! ### Reachability and the pool-length invariant (C4) -/

theorem registryKeys_modify {σ : Type} (r : Registry σ) (k : Nat)
    (f : PoolData σ → PoolData σ) :
    registryKeys (registryModify r k f) = registryKeys r := by
  unfold registryKeys registryModify
  rw [List.map_map]
  refine List.map_congr_left (fun kp _ => ?_)
  simp only [Function.comp_apply]
  by_cases hk : kp.1 = k
  · rw [if_pos hk]
  · rw [if_neg hk]

theorem registryModify_mem {σ : Type} {r : Registry σ} {k : Nat}
    {f : PoolData σ → PoolData σ} {kp2 : Nat × PoolData σ}
    (h : kp2 ∈ registryModify r k f) :
    ∃ kp ∈ r, kp2 = (if kp.1 = k then (kp.1, f kp.2) else kp) := by
  unfold registryModify at h
  obtain ⟨kp, hkp, hkp2⟩ := List.mem_map.mp h
  exact ⟨kp, hkp, hkp2.symm⟩

theorem registryInsert_keys {σ : Type} (r : Registry σ) (k : Nat) (p : PoolData σ) :
    registryKeys (registryInsert r k p) = insertSorted k (registryKeys r) := by
  induction r with
  | nil => rfl
  | cons kp rest ih =>
    unfold registryInsert insertSorted registryKeys
    simp only [List.map_cons]
    by_cases h1 : k < kp.1
    · rw [if_pos h1, if_pos h1]
      rfl
    · rw [if_neg h1, if_neg h1]
      by_cases h2 : k = kp.1
      · rw [if_pos h2, if_pos h2]
        rfl
      · rw [if_neg h2, if_neg h2]
        simp only [List.map_cons]
        unfold registryKeys at ih
        rw [ih]

theorem registryInsert_mem {σ : Type} {r : Registry σ} {k : Nat} {p : PoolData σ}
    {kp2 : Nat × PoolData σ} (h : kp2 ∈ registryInsert r k p) :
    kp2 ∈ r ∨ kp2 = (k, p) := by
  induction r with
  | nil =>
    unfold registryInsert at h
    simp only [List.mem_singleton] at h
    exact Or.inr h
  | cons kp rest ih =>
    unfold registryInsert at h
    by_cases h1 : k < kp.1
    · rw [if_pos h1] at h
      rcases List.mem_cons.mp h with rfl | h2
      · exact Or.inr rfl
      · exact Or.inl h2
    · rw [if_neg h1] at h
      by_cases h2 : k = kp.1
      · rw [if_pos h2] at h
        exact Or.inl h
      · rw [if_neg h2] at h
        rcases List.mem_cons.mp h with rfl | h3
        · exact Or.inl (by simp)
        · rcases ih h3 with h4 | h4
          · exact Or.inl (by simp [h4])
          · exact Or.inr h4

theorem registryErase_sublist {σ : Type} (r : Registry σ) (k : Nat) :
    (registryErase r k).Sublist r := by
  induction r with
  | nil => exact List.Sublist.refl []
  | cons kp rest ih =>
    unfold registryErase
    by_cases hk : kp.1 = k
    · rw [if_pos hk]
      exact List.sublist_cons_self kp rest
    · rw [if_neg hk]
      exact List.Sublist.cons₂ kp ih

theorem poolCloneIn_lengths {σ : Type} {p p2 : PoolData σ} {id : Nat} {v : σ} {h : Nat}
    (hp : World.poolCloneIn p id v h = some p2) :
    p2.m_pool.length = p.m_pool.length ∧ p2.m_active.length = p.m_active.length := by
  unfold World.poolCloneIn PoolData.add at hp
  by_cases hle : p.m_pool.length ≤ id
  · rw [if_pos hle] at hp
    cases hp
  · rw [if_neg hle] at hp
    simp only [Option.map_some'] at hp
    injection hp with hp2
    rw [← hp2]
    simp

theorem registryModifyM_entries {σ : Type} {r r2 : Registry σ} {k : Nat}
    {f : PoolData σ → Option (PoolData σ)}
    (h : registryModifyM r k f = some r2) :
    registryKeys r2 = registryKeys r ∧
    ∀ kp2 ∈ r2, ∃ kp ∈ r, kp2.1 = kp.1 ∧ (kp2.2 = kp.2 ∨ f kp.2 = some kp2.2) := by
  induction r generalizing r2 with
  | nil =>
    injection h with h2
    subst h2
    exact ⟨rfl, by simp⟩
  | cons kp rest ih =>
    unfold registryModifyM at h
    by_cases hk : kp.1 = k
    · rw [if_pos hk] at h
      rcases hf : f kp.2 with _ | p
      · rw [hf] at h
        cases h
      · rw [hf] at h
        rcases hrest : registryModifyM rest k f with _ | rest2
        · rw [hrest] at h
          cases h
        · rw [hrest] at h
          injection h with h2
          subst h2
          obtain ⟨hkeys, hmem⟩ := ih hrest
          constructor
          · unfold registryKeys at hkeys ⊢
            simp only [List.map_cons, hkeys]
          · intro kp2 hkp2
            rcases List.mem_cons.mp hkp2 with rfl | h3
            · exact ⟨kp, by simp, rfl, Or.inr hf⟩
            · obtain ⟨q, hq, hq1, hq2⟩ := hmem kp2 h3
              exact ⟨q, by simp [hq], hq1, hq2⟩
    · rw [if_neg hk] at h
      rcases hrest : registryModifyM rest k f with _ | rest2
      · rw [hrest] at h
        cases h
      · rw [hrest] at h
        injection h with h2
        subst h2
        obtain ⟨hkeys, hmem⟩ := ih hrest
        constructor
        · unfold registryKeys at hkeys ⊢
          simp only [List.map_cons, hkeys]
        · intro kp2 hkp2
          rcases List.mem_cons.mp hkp2 with rfl | h3
          · exact ⟨kp2, by simp, rfl, Or.inl rfl⟩
          · obtain ⟨q, hq, hq1, hq2⟩ := hmem kp2 h3
            exact ⟨q, by simp [hq], hq1, hq2⟩

theorem cloneFromSame_entries {σ : Type} {reg reg2 : Registry σ} {srcId id h : Nat}
    (hc : World.cloneFromSame reg srcId id h = some reg2) :
    registryKeys reg2 = registryKeys reg ∧
    ∀ kp2 ∈ reg2, ∃ kp ∈ reg, kp2.1 = kp.1 ∧
      kp2.2.m_pool.length = kp.2.m_pool.length ∧
      kp2.2.m_active.length = kp.2.m_active.length := by
  induction reg generalizing reg2 with
  | nil =>
    injection hc with h2
    subst h2
    exact ⟨rfl, by simp⟩
  | cons kp rest ih =>
    unfold World.cloneFromSame at hc
    by_cases hhas : kp.2.has srcId = true
    · rw [if_pos hhas] at hc
      rcases hat : kp.2.atIdx srcId with _ | sv
      · rw [hat] at hc
        cases hc
      · rw [hat] at hc
        rcases hrest : World.cloneFromSame rest srcId id h with _ | rest2
        · rw [hrest] at hc
          cases hc
        · rw [hrest] at hc
          replace hc : (match World.poolCloneIn kp.2 id sv.val h with
              | some p2 => some ((kp.1, p2) :: rest2)
              | none => none) = some reg2 := hc
          rcases hpc : World.poolCloneIn kp.2 id sv.val h with _ | p2
          · rw [hpc] at hc
            cases hc
          · rw [hpc] at hc
            injection hc with h2
            subst h2
            obtain ⟨hkeys, hmem⟩ := ih hrest
            obtain ⟨hl1, hl2⟩ := poolCloneIn_lengths hpc
            constructor
            · unfold registryKeys at hkeys ⊢
              simp only [List.map_cons, hkeys]
            · intro kp2 hkp2
              rcases List.mem_cons.mp hkp2 with rfl | h3
              · exact ⟨kp, by simp, rfl, hl1, hl2⟩
              · obtain ⟨q, hq, hq1, hq2⟩ := hmem kp2 h3
                exact ⟨q, by simp [hq], hq1, hq2⟩
    · rw [if_neg hhas] at hc
      rcases hrest : World.cloneFromSame rest srcId id h with _ | rest2
      · rw [hrest] at hc
        cases hc
      · rw [hrest] at hc
        injection hc with h2
        subst h2
        obtain ⟨hkeys, hmem⟩ := ih hrest
        constructor
        · unfold registryKeys at hkeys ⊢
          simp only [List.map_cons, hkeys]
        · intro kp2 hkp2
          rcases List.mem_cons.mp hkp2 with rfl | h3
          · exact ⟨kp2, by simp, rfl, rfl, rfl⟩
          · obtain ⟨q, hq, hq1, hq2⟩ := hmem kp2 h3
            exact ⟨q, by simp [hq], hq1, hq2⟩

theorem cloneFromCross_entries {σ : Type} {src : Registry σ} :
    ∀ {dst dst2 : Registry σ} {srcId id h : Nat},
    World.cloneFromCross dst src srcId id h = some dst2 →
    registryKeys dst2 = registryKeys dst ∧
    ∀ kp2 ∈ dst2, ∃ kp ∈ dst, kp2.1 = kp.1 ∧
      kp2.2.m_pool.length = kp.2.m_pool.length ∧
      kp2.2.m_active.length = kp.2.m_active.length := by
  induction src with
  | nil =>
    intro dst dst2 srcId id h hc
    injection hc with h2
    subst h2
    refine ⟨rfl, fun kp2 hkp2 => ⟨kp2, hkp2, rfl, rfl, rfl⟩⟩
  | cons kp0 rest ih =>
    intro dst dst2 srcId id h hc
    unfold World.cloneFromCross at hc
    by_cases hcond : kp0.2.has srcId = true ∧ (registryFind dst kp0.1).isSome = true
    · rw [if_pos hcond] at hc
      rcases hat : kp0.2.atIdx srcId with _ | sv
      · rw [hat] at hc
        cases hc
      · rw [hat] at hc
        replace hc : (match registryModifyM dst kp0.1
              (fun p => World.poolCloneIn p id sv.val h) with
            | some dst1 => World.cloneFromCross dst1 rest srcId id h
            | none => none) = some dst2 := hc
        rcases hmod : registryModifyM dst kp0.1
            (fun p => World.poolCloneIn p id sv.val h) with _ | dst1
        · rw [hmod] at hc
          cases hc
        · rw [hmod] at hc
          obtain ⟨hkeys1, hmem1⟩ := registryModifyM_entries hmod
          obtain ⟨hkeys2, hmem2⟩ := ih hc
          constructor
          · rw [hkeys2, hkeys1]
          · intro kp2 hkp2
            obtain ⟨q1, hq1, hq1a, hq1b, hq1c⟩ := hmem2 kp2 hkp2
            obtain ⟨q0, hq0, hq0a, hq0b⟩ := hmem1 q1 hq1
            refine ⟨q0, hq0, by rw [hq1a, hq0a], ?_, ?_⟩
            · rcases hq0b with hq0b | hq0b
              · rw [hq1b, hq0b]
              · obtain ⟨hlp, hla⟩ := poolCloneIn_lengths hq0b
                rw [hq1b, hlp]
            · rcases hq0b with hq0b | hq0b
              · rw [hq1c, hq0b]
              · obtain ⟨hlp, hla⟩ := poolCloneIn_lengths hq0b
                rw [hq1c, hla]
    · rw [if_neg hcond] at hc
      exact ih hc

theorem wf_empty (σ : Type) : WF (emptyWorld σ) := by
  refine ⟨List.chain'_nil, List.chain'_nil, ?_, ?_⟩ <;> simp [emptyWorld]

theorem wf_addEntity {σ : Type} (env : Nat → CompBehavior σ) {w : World σ} (hwf : WF w)
    {h : Nat} {wi : World σ × Nat} (heq : w.addEntity env h = some wi) : WF wi.1 := by
  obtain ⟨hkeys, hchain, hbound, hpools⟩ := hwf
  cases hmo : w.m_open with
  | cons i rest =>
    by_cases hlt : i < w.m_entities.length
    case neg =>
      rw [addEntity_oob env h i rest hmo (by omega)] at heq
      cases heq
    rw [addEntity_reuse env h i rest hmo hlt] at heq
    injection heq with heq1
    subst heq1
    refine ⟨hkeys, ?_, ?_, hpools⟩
    · rw [hmo] at hchain
      exact hchain.tail
    · intro j hj
      exact hbound j (by rw [hmo]; exact List.mem_cons_of_mem i hj)
  | nil =>
    rw [addEntity_grow env h hmo] at heq
    injection heq with heq1
    subst heq1
    have heqk : registryKeys (w.m_registry.map
        (fun kp => (kp.1, kp.2.resize (w.m_capacity + 1) (env kp.1).dflt))) =
        registryKeys w.m_registry := by
      unfold registryKeys
      rw [List.map_map]
      exact List.map_congr_left (fun kp _ => rfl)
    refine ⟨?_, hchain, ?_, ?_⟩
    · show List.Chain' (· < ·) (registryKeys (w.m_registry.map
        (fun kp => (kp.1, kp.2.resize (w.m_capacity + 1) (env kp.1).dflt))))
      rw [heqk]
      exact hkeys
    · intro i hi
      have h1 := hbound i hi
      show i < w.m_capacity + 1
      omega
    · intro kp hkp
      simp only [List.mem_map] at hkp
      obtain ⟨q, _, rfl⟩ := hkp
      have hr := PoolData.resize_length q.2 (w.m_capacity + 1) (env q.1).dflt
      show (q.2.resize (w.m_capacity + 1) (env q.1).dflt).m_active.length =
          (q.2.resize (w.m_capacity + 1) (env q.1).dflt).m_pool.length ∧
        w.m_capacity + 1 ≤ (q.2.resize (w.m_capacity + 1) (env q.1).dflt).m_pool.length
      rw [hr.1, hr.2]
      exact ⟨rfl, Nat.le_refl _⟩

theorem wf_step {σ : Type} {env : Nat → CompBehavior σ} {w w2 : World σ}
    (hwf : WF w) (hs : Step env w w2) : WF w2 := by
  obtain ⟨hkeys, hchain, hbound, hpools⟩ := hwf
  cases hs with
  | regT k =>
    unfold World.addT
    refine ⟨?_, hchain, hbound, ?_⟩
    · show List.Chain' (· < ·) (registryKeys (registryModify
        (registryInsert w.m_registry k ⟨[], []⟩) k
        (fun p => p.resize w.m_capacity (env k).dflt)))
      rw [registryKeys_modify, registryInsert_keys]
      exact insertSorted_chain k _ hkeys
    · intro kp2 hkp2
      replace hkp2 : kp2 ∈ registryModify (registryInsert w.m_registry k ⟨[], []⟩) k
          (fun p => p.resize w.m_capacity (env k).dflt) := hkp2
      obtain ⟨kp, hkp, hkp2eq⟩ := registryModify_mem hkp2
      rcases registryInsert_mem hkp with hin | hin
      · by_cases hk : kp.1 = k
        · rw [if_pos hk] at hkp2eq
          subst hkp2eq
          have hr := PoolData.resize_length kp.2 w.m_capacity (env k).dflt
          show (kp.2.resize w.m_capacity (env k).dflt).m_active.length =
              (kp.2.resize w.m_capacity (env k).dflt).m_pool.length ∧
            w.m_capacity ≤ (kp.2.resize w.m_capacity (env k).dflt).m_pool.length
          rw [hr.1, hr.2]
          exact ⟨rfl, Nat.le_refl _⟩
        · rw [if_neg hk] at hkp2eq
          rw [hkp2eq]
          exact hpools kp hin
      · subst hin
        rw [if_pos rfl] at hkp2eq
        subst hkp2eq
        have hr := PoolData.resize_length (⟨[], []⟩ : PoolData σ) w.m_capacity (env k).dflt
        show ((⟨[], []⟩ : PoolData σ).resize w.m_capacity (env k).dflt).m_active.length =
            ((⟨[], []⟩ : PoolData σ).resize w.m_capacity (env k).dflt).m_pool.length ∧
          w.m_capacity ≤ ((⟨[], []⟩ : PoolData σ).resize w.m_capacity (env k).dflt).m_pool.length
        rw [hr.1, hr.2]
        exact ⟨rfl, Nat.le_refl _⟩
  | unregT k =>
    have hsub := registryErase_sublist w.m_registry k
    refine ⟨?_, hchain, hbound, ?_⟩
    · exact hkeys.sublist (hsub.map Prod.fst)
    · intro kp hkp
      exact hpools kp (hsub.subset hkp)
  | clearStep =>
    exact ⟨List.chain'_nil, hchain, hbound, by simp [World.clearW]⟩
  | updateStep =>
    unfold World.update
    refine ⟨?_, hchain, hbound, ?_⟩
    · show List.Chain' (· < ·) (registryKeys (w.m_registry.map
        (fun kp => (kp.1, World.updLoop (env kp.1).upd w.m_open kp.2 w.m_capacity))))
      have heqk : registryKeys (w.m_registry.map
          (fun kp => (kp.1, World.updLoop (env kp.1).upd w.m_open kp.2 w.m_capacity))) =
          registryKeys w.m_registry := by
        unfold registryKeys
        rw [List.map_map]
        exact List.map_congr_left (fun kp _ => rfl)
      rw [heqk]
      exact hkeys
    · intro kp2 hkp2
      simp only [List.mem_map] at hkp2
      obtain ⟨q, hq, rfl⟩ := hkp2
      have h1 := hpools q hq
      refine ⟨?_, ?_⟩
      · show (World.updLoop _ _ q.2 _).m_active.length = (World.updLoop _ _ q.2 _).m_pool.length
        rw [updLoop_active, updLoop_length]
        exact h1.1
      · show w.m_capacity ≤ (World.updLoop _ _ q.2 _).m_pool.length
        rw [updLoop_length]
        exact h1.2
  | addEnt h wi heq =>
    exact wf_addEntity env ⟨hkeys, hchain, hbound, hpools⟩ heq
  | cloneSame h srcId w2 id heq =>
    unfold World.addEntitySame at heq
    rcases hadd : w.addEntity env h with _ | wi
    · rw [hadd] at heq
      cases heq
    · rw [hadd] at heq
      replace heq : (World.cloneFromSame wi.1.m_registry srcId wi.2 h).map
          (fun reg => ({ wi.1 with m_registry := reg }, wi.2)) = some (w2, id) := heq
      rcases hcs : World.cloneFromSame wi.1.m_registry srcId wi.2 h with _ | reg2
      · rw [hcs] at heq
        cases heq
      · rw [hcs] at heq
        simp only [Option.map_some'] at heq
        injection heq with heq1
        injection heq1 with heq2 heq3
        subst heq2
        obtain ⟨hk1, hc1, hb1, hp1⟩ :=
          wf_addEntity env ⟨hkeys, hchain, hbound, hpools⟩ hadd
        obtain ⟨hck, hcm⟩ := cloneFromSame_entries hcs
        refine ⟨?_, hc1, hb1, ?_⟩
        · show List.Chain' (· < ·) (registryKeys reg2)
          rw [hck]
          exact hk1
        · intro kp2 hkp2
          obtain ⟨kp, hkp, _, hl1, hl2⟩ := hcm kp2 hkp2
          have h2 := hp1 kp hkp
          exact ⟨by rw [hl1, hl2]; exact h2.1, by rw [hl1]; exact h2.2⟩
  | cloneCross h src srcId w2 id heq =>
    unfold World.addEntityCross at heq
    rcases hadd : w.addEntity env h with _ | wi
    · rw [hadd] at heq
      cases heq
    · rw [hadd] at heq
      replace heq : (World.cloneFromCross wi.1.m_registry src.m_registry srcId
          wi.2 h).map
          (fun reg => ({ wi.1 with m_registry := reg }, wi.2)) = some (w2, id) := heq
      rcases hcs : World.cloneFromCross wi.1.m_registry src.m_registry
          srcId wi.2 h with _ | reg2
      · rw [hcs] at heq
        cases heq
      · rw [hcs] at heq
        simp only [Option.map_some'] at heq
        injection heq with heq1
        injection heq1 with heq2 heq3
        subst heq2
        obtain ⟨hk1, hc1, hb1, hp1⟩ :=
          wf_addEntity env ⟨hkeys, hchain, hbound, hpools⟩ hadd
        obtain ⟨hck, hcm⟩ := cloneFromCross_entries hcs
        refine ⟨?_, hc1, hb1, ?_⟩
        · show List.Chain' (· < ·) (registryKeys reg2)
          rw [hck]
          exact hk1
        · intro kp2 hkp2
          obtain ⟨kp, hkp, _, hl1, hl2⟩ := hcm kp2 hkp2
          have h2 := hp1 kp hkp
          exact ⟨by rw [hl1, hl2]; exact h2.1, by rw [hl1]; exact h2.2⟩
  | removeEnt e w2 heq =>
    by_cases hent : w.hasEntity e = true
    · by_cases hlt : e.m_id < w.m_entities.length
      case neg =>
        unfold World.removeEntityW at heq
        rw [hent, if_pos rfl, if_neg hlt] at heq
        cases heq
      have hlen : ∀ kp ∈ w.m_registry, e.m_id < kp.2.m_active.length := by
        intro kp hkp
        have h1 := hpools kp hkp
        have h2 := (hasEntity_iff.mp hent).2
        omega
      rw [removeEntityW_eq hent hlt hlen] at heq
      injection heq with heq1
      subst heq1
      have hid := hasEntity_iff.mp hent
      by_cases htop : e.m_id = w.m_capacity - 1
      · refine ⟨?_, ?_, ?_, ?_⟩
        · show List.Chain' (· < ·) (registryKeys (w.m_registry.map
            (fun kp => (kp.1, { kp.2 with m_active := kp.2.m_active.set e.m_id false }))))
          have heqk : registryKeys (w.m_registry.map
              (fun kp => (kp.1, { kp.2 with m_active := kp.2.m_active.set e.m_id false }))) =
              registryKeys w.m_registry := by
            unfold registryKeys
            rw [List.map_map]
            exact List.map_congr_left (fun kp _ => rfl)
          rw [heqk]
          exact hkeys
        · show List.Chain' (· < ·) (if e.m_id = w.m_capacity - 1 then w.m_open
            else insertSorted e.m_id w.m_open)
          rw [if_pos htop]
          exact hchain
        · intro i hi
          replace hi : i ∈ (if e.m_id = w.m_capacity - 1 then w.m_open
              else insertSorted e.m_id w.m_open) := hi
          rw [if_pos htop] at hi
          show i < if e.m_id = w.m_capacity - 1 then w.m_capacity - 1 else w.m_capacity
          rw [if_pos htop]
          have h1 := hbound i hi
          have h2 : i ≠ e.m_id := fun hx => hid.1 (hx ▸ hi)
          omega
        · intro kp2 hkp2
          simp only [List.mem_map] at hkp2
          obtain ⟨q, hq, rfl⟩ := hkp2
          have h1 := hpools q hq
          show (q.2.m_active.set e.m_id false).length = q.2.m_pool.length ∧
            (if e.m_id = w.m_capacity - 1 then w.m_capacity - 1 else w.m_capacity) ≤
              q.2.m_pool.length
          rw [if_pos htop]
          simp only [List.length_set]
          exact ⟨h1.1, by omega⟩
      · refine ⟨?_, ?_, ?_, ?_⟩
        · show List.Chain' (· < ·) (registryKeys (w.m_registry.map
            (fun kp => (kp.1, { kp.2 with m_active := kp.2.m_active.set e.m_id false }))))
          have heqk : registryKeys (w.m_registry.map
              (fun kp => (kp.1, { kp.2 with m_active := kp.2.m_active.set e.m_id false }))) =
              registryKeys w.m_registry := by
            unfold registryKeys
            rw [List.map_map]
            exact List.map_congr_left (fun kp _ => rfl)
          rw [heqk]
          exact hkeys
        · show List.Chain' (· < ·) (if e.m_id = w.m_capacity - 1 then w.m_open
            else insertSorted e.m_id w.m_open)
          rw [if_neg htop]
          exact insertSorted_chain e.m_id w.m_open hchain
        · intro i hi
          replace hi : i ∈ (if e.m_id = w.m_capacity - 1 then w.m_open
              else insertSorted e.m_id w.m_open) := hi
          rw [if_neg htop] at hi
          show i < if e.m_id = w.m_capacity - 1 then w.m_capacity - 1 else w.m_capacity
          rw [if_neg htop]
          rcases (insertSorted_mem e.m_id w.m_open i).mp hi with rfl | hmem
          · exact hid.2
          · exact hbound i hmem
        · intro kp2 hkp2
          simp only [List.mem_map] at hkp2
          obtain ⟨q, hq, rfl⟩ := hkp2
          have h1 := hpools q hq
          show (q.2.m_active.set e.m_id false).length = q.2.m_pool.length ∧
            (if e.m_id = w.m_capacity - 1 then w.m_capacity - 1 else w.m_capacity) ≤
              q.2.m_pool.length
          rw [if_neg htop]
          simp only [List.length_set]
          exact ⟨h1.1, h1.2⟩
    · unfold World.removeEntityW at heq
      rw [if_neg (fun hx => hent hx)] at heq
      injection heq with heq1
      subst heq1
      exact ⟨hkeys, hchain, hbound, hpools⟩
  | addComp e k v h w2 inst heq =>
    unfold World.addComponent at heq
    split at heq
    · cases heq
    · split at heq
      · cases heq
      · split at heq
        · cases heq
        · next p hfind =>
          split at heq
          · split at heq
            · cases heq
            · next p2 hpc =>
              split at heq
              · cases heq
              · next inst2 hat =>
                injection heq with heq1
                injection heq1 with heq2 heq3
                subst heq2
                refine ⟨?_, hchain, hbound, ?_⟩
                · show List.Chain' (· < ·) (registryKeys (registryModify
                    w.m_registry k (fun _ => p2)))
                  rw [registryKeys_modify]
                  exact hkeys
                · intro kp2 hkp2
                  replace hkp2 : kp2 ∈ registryModify w.m_registry k (fun _ => p2) := hkp2
                  obtain ⟨kp, hkp, hkp2eq⟩ := registryModify_mem hkp2
                  by_cases hk : kp.1 = k
                  · rw [if_pos hk] at hkp2eq
                    subst hkp2eq
                    obtain ⟨q, hq, hq1, hq2⟩ := registryFind_eq_some_mem hfind
                    have h1 := hpools q hq
                    obtain ⟨hl1, hl2⟩ := poolCloneIn_lengths hpc
                    rw [hq2] at h1
                    exact ⟨by rw [hl1, hl2]; exact h1.1, by rw [hl1]; exact h1.2⟩
                  · rw [if_neg hk] at hkp2eq
                    rw [hkp2eq]
                    exact hpools kp hkp
          · split at heq
            · cases heq
            · injection heq with heq1
              injection heq1 with heq2 heq3
              subst heq2
              exact ⟨hkeys, hchain, hbound, hpools⟩
  | removeComp e k w2 heq =>
    unfold World.removeComponent at heq
    split at heq
    · cases heq
    · next p hfind =>
      split at heq
      · cases heq
      · next p2 hrm =>
        injection heq with heq1
        subst heq1
        refine ⟨?_, hchain, hbound, ?_⟩
        · show List.Chain' (· < ·) (registryKeys (registryModify
            w.m_registry k (fun _ => p2)))
          rw [registryKeys_modify]
          exact hkeys
        · intro kp2 hkp2
          replace hkp2 : kp2 ∈ registryModify w.m_registry k (fun _ => p2) := hkp2
          obtain ⟨kp, hkp, hkp2eq⟩ := registryModify_mem hkp2
          by_cases hk : kp.1 = k
          · rw [if_pos hk] at hkp2eq
            subst hkp2eq
            obtain ⟨q, hq, hq1, hq2⟩ := registryFind_eq_some_mem hfind
            have h1 := hpools q hq
            obtain ⟨hl1, hl2⟩ := PoolData.remove_lengths hrm
            rw [hq2] at h1
            exact ⟨by rw [hl1, hl2]; exact h1.1, by rw [hl1]; exact h1.2⟩
          · rw [if_neg hk] at hkp2eq
            rw [hkp2eq]
            exact hpools kp hkp
  | replaceEnt i h w2 heq =>
    unfold World.replaceEntity at heq
    split at heq
    · injection heq with heq1
      subst heq1
      exact ⟨hkeys, hchain, hbound, hpools⟩
    · cases heq

theorem reach_wf {σ : Type} {env : Nat → CompBehavior σ} {w : World σ}
    (hr : Reach env w) : WF w := by
  unfold Reach at hr
  induction hr with
  | refl => exact wf_empty σ
  | tail hsteps hstep ih => exact wf_step ih hstep

/-- C4 counterexample: register one type, create one entity, then release
the top slot.  The capacity drops to 0 but the pool keeps length 1, so
"pool length equals world capacity in every reachable state, including
states reached by releasing the top slot" is false on the code. -/
theorem c4_counterexample :
    ((emptyWorld Nat).addT (fun _ => ⟨0, Nat.succ⟩) 0).addEntity
        (fun _ => ⟨0, Nat.succ⟩) 0 =
      some (⟨[(0, ⟨[⟨0, none⟩], [false]⟩)], [0], [], 1, 1⟩, 0) ∧
    (⟨[(0, ⟨[⟨0, none⟩], [false]⟩)], [0], [], 1, 1⟩ : World Nat).removeEntityW
        ⟨some 0, 0⟩ =
      some ⟨[(0, ⟨[⟨0, none⟩], [false]⟩)], [], [], 0, 0⟩ ∧
    ¬ (∀ kp ∈ [((0 : Nat), (⟨[⟨0, none⟩], [false]⟩ : PoolData Nat))],
        kp.2.m_pool.length = (0 : Nat)) := by
  exact ⟨by decide, by decide, by decide⟩

/-- C4 amended: in every reachable state each pool's instance and flag
sequences have EQUAL length, and that length is AT LEAST the capacity (not
exactly the capacity): a capacity-growing `addEntity` resizes every pool to
the new capacity exactly, but releasing the top slot — when its index is
still within the back-reference vector, the only case with defined
behaviour — decrements the capacity while leaving every pool's length
untouched, so equality fails in exactly those states. -/
theorem c4_pool_length_invariant {σ : Type} (env : Nat → CompBehavior σ) :
    (∀ w : World σ, Reach env w →
       ∀ kp ∈ w.m_registry, kp.2.m_active.length = kp.2.m_pool.length ∧
         w.m_capacity ≤ kp.2.m_pool.length) ∧
    (∀ (w : World σ) (h : Nat), w.m_open = [] →
       ∃ wi, w.addEntity env h = some wi ∧
         ∀ kp ∈ wi.1.m_registry,
           kp.2.m_pool.length = wi.1.m_capacity ∧
           kp.2.m_active.length = wi.1.m_capacity) ∧
    (∀ (w : World σ) (e : Entity), w.hasEntity e = true →
       e.m_id = w.m_capacity - 1 →
       e.m_id < w.m_entities.length →
       (∀ kp ∈ w.m_registry, e.m_id < kp.2.m_active.length) →
       ∃ w2, w.removeEntityW e = some w2 ∧ w2.m_capacity = w.m_capacity - 1 ∧
         w2.m_registry.map (fun kp => kp.2.m_pool.length) =
           w.m_registry.map (fun kp => kp.2.m_pool.length)) := by
  refine ⟨?_, ?_, ?_⟩
  · intro w hr kp hkp
    exact (reach_wf hr).2.2.2 kp hkp
  · intro w h hmo
    refine ⟨_, addEntity_grow env h hmo, ?_⟩
    intro kp hkp
    simp only [List.mem_map] at hkp
    obtain ⟨q, _, rfl⟩ := hkp
    have hr := PoolData.resize_length q.2 (w.m_capacity + 1) (env q.1).dflt
    exact ⟨hr.1, hr.2⟩
  · intro w e hent htop hlt hlen
    rw [removeEntityW_eq hent hlt hlen]
    refine ⟨_, rfl, by simp [htop], ?_⟩
    show (w.m_registry.map (fun kp =>
        (kp.1, { kp.2 with m_active := kp.2.m_active.set e.m_id false }))).map
        (fun kp => kp.2.m_pool.length) = _
    rw [List.map_map]
    exact List.map_congr_left (fun kp _ => rfl)

/-- Witness for C4's amended statement: the invariant at the reachable
world obtained by registering type 0 into a fresh world; the
growth-equality clause at a fresh one-pool world; the top-release clause at
a one-entity world (capacity 1 → 0, pool length stays 1). -/
theorem c4_pool_length_invariant_witness :
    (∀ kp ∈ ((emptyWorld Nat).addT (fun _ => ⟨0, Nat.succ⟩) 0).m_registry,
       kp.2.m_active.length = kp.2.m_pool.length ∧
       ((emptyWorld Nat).addT (fun _ => ⟨0, Nat.succ⟩) 0).m_capacity ≤
         kp.2.m_pool.length) ∧
    (∃ wi, ((emptyWorld Nat).addT (fun _ => ⟨0, Nat.succ⟩) 0).addEntity
        (fun _ => ⟨0, Nat.succ⟩) 0 = some wi ∧
       ∀ kp ∈ wi.1.m_registry,
         kp.2.m_pool.length = wi.1.m_capacity ∧
         kp.2.m_active.length = wi.1.m_capacity) ∧
    (∃ w2, (⟨[(0, ⟨[⟨0, none⟩], [false]⟩)], [0], [], 1, 1⟩ :
          World Nat).removeEntityW ⟨some 0, 0⟩ = some w2 ∧
       w2.m_capacity = (⟨[(0, ⟨[⟨0, none⟩], [false]⟩)], [0], [], 1, 1⟩ :
          World Nat).m_capacity - 1 ∧
       w2.m_registry.map (fun kp => kp.2.m_pool.length) =
         (⟨[(0, ⟨[⟨0, none⟩], [false]⟩)], [0], [], 1, 1⟩ :
            World Nat).m_registry.map (fun kp => kp.2.m_pool.length)) := by
  refine ⟨?_, ?_, ?_⟩
  · exact (c4_pool_length_invariant (σ := Nat) (fun _ => ⟨0, Nat.succ⟩)).1
      ((emptyWorld Nat).addT (fun _ => ⟨0, Nat.succ⟩) 0)
      (Relation.ReflTransGen.single (Step.regT (emptyWorld Nat) 0))
  · exact (c4_pool_length_invariant (σ := Nat) (fun _ => ⟨0, Nat.succ⟩)).2.1
      ((emptyWorld Nat).addT (fun _ => ⟨0, Nat.succ⟩) 0) 0 (by decide)
  · exact (c4_pool_length_invariant (σ := Nat) (fun _ => ⟨0, Nat.succ⟩)).2.2
      ⟨[(0, ⟨[⟨0, none⟩], [false]⟩)], [0], [], 1, 1⟩ ⟨some 0, 0⟩
      (by decide) (by decide) (by decide) (by decide)

end Divvy
